import Mathlib

/-!
Verification development for the "Drag Race Simulator" repository
(src/src/formats/allstars10.js).

The JavaScript source is shallowly embedded below.  Conventions:

* The caller-supplied RNG (`options.rng`, a function returning a float in
  `[0,1)`) is modelled as a recorded stream `s : Nat → Nat × Nat` together
  with an explicit cursor: the `i`-th draw `(m, k)` denotes the dyadic
  rational `m / 2^k`.  Dyadic rationals are exactly the values an IEEE-754
  double in `[0,1)` can take, so quantifying over all such streams is
  quantifying over all possible recorded draw sequences.  The RNG contract
  `0 ≤ v < 1` becomes `m < 2^k`.
* `Math.floor(v * n)` for `v = m / 2^k` is exactly `m * n / 2^k` in
  natural-number (floor) division, and `v < 0.5` is exactly `2*m < 2^k`,
  so no rounding is lost by the encoding.
* The JS object `points` (keys pre-seeded in episode order, integer
  values) is modelled as an association list in key-insertion order.
* The rejection-sampling loop in `chooseTwoWinners` need not terminate,
  so it and everything above it take a `fuel` bound and return `Option`;
  `none` means the loop was still running after `fuel` redraws.
* `new Date().toISOString()` is modelled by passing the wall-clock
  reading `now` as an explicit argument to the simulation.
-/

/-- The recorded RNG stream: draw `i` is the dyadic rational
`(s i).1 / 2 ^ (s i).2`. -/
abbrev Rng := Nat → Nat × Nat

/-- The RNG contract of §4.1 of the spec: every draw lies in `[0,1)`,
i.e. `m < 2^k`. -/
def RngContract (s : Rng) : Prop := ∀ i, (s i).1 < 2 ^ (s i).2

/-- `Math.floor(v * n)` for the dyadic value `v = m / 2^k`. -/
def floorMul (d : Nat × Nat) (n : Nat) : Nat := d.1 * n / 2 ^ d.2

/-- `v < 0.5` for the dyadic value `v = m / 2^k`. -/
def lessHalf (d : Nat × Nat) : Bool := decide (2 * d.1 < 2 ^ d.2)

/-- `pickRandomIndex(arr, rng)`: `Math.floor(rng() * arr.length)`.
Returns the index and the advanced cursor. -/
def pickRandomIndex (len : Nat) (s : Rng) (c : Nat) : Nat × Nat :=
  (floorMul (s c) len, c + 1)

/-- The `do { b = pickRandomIndex(...) } while (b === a)` rejection loop of
`chooseTwoWinners`, with an explicit redraw bound `fuel`; returns the
accepted index and the advanced cursor. -/
def rejectLoop (len a : Nat) (s : Rng) : Nat → Nat → Option (Nat × Nat)
  | _, 0 => none
  | c, fuel + 1 =>
    let b := floorMul (s c) len
    if b = a then rejectLoop len a s (c + 1) fuel else some (b, c + 1)

/-- `chooseTwoWinners(queenNames, rng)`: two distinct uniformly drawn
winners (rejection sampling on the second index); lists of length `< 2`
are returned as-is without consuming a draw. -/
def chooseTwoWinners (queenNames : List String) (s : Rng) (c : Nat)
    (fuel : Nat) : Option (List String × Nat) :=
  if queenNames.length < 2 then some (queenNames, c)
  else
    let a := floorMul (s c) queenNames.length
    match rejectLoop queenNames.length a s (c + 1) fuel with
    | none => none
    | some (b, c') => some ([queenNames.getD a "", queenNames.getD b ""], c')

/-- The per-episode points object: an association list in key-insertion
order, mirroring a JS object with integer values. -/
abbrev Points := List (String × Int)

/-- `points[q] += d` on a pre-seeded key (a missing key is left alone;
the source never increments a missing key). -/
def addPt (pts : Points) (q : String) (d : Int) : Points :=
  pts.map fun p => if p.1 = q then (p.1, p.2 + d) else p

/-- `points[q]` (0 for a missing key). -/
def getPt (pts : Points) (q : String) : Int :=
  match pts.find? (fun p => p.1 == q) with
  | some p => p.2
  | none => 0

/-- The value of `runEpisodeSix`: its `points` object and the flattened
`detail` record `{winners, lipSyncWinner, mvqAssignments}`. -/
structure EpisodeOut where
  points : Points
  winners : List String
  lipSyncWinner : String
  mvqAssignments : List (String × String)
  deriving Repr, DecidableEq, Inhabited

/-- One step of the `remaining.forEach(from => ...)` MVQ loop: `giver`
picks a recipient among the other five and grants +1. -/
def mvqStep (queensInEpisode : List String) (s : Rng)
    (acc : Points × List (String × String) × Nat) (giver : String) :
    Points × List (String × String) × Nat :=
  let possible := queensInEpisode.filter fun x => x ≠ giver
  let (ri, c') := pickRandomIndex possible.length s acc.2.2
  let recipient := possible.getD ri ""
  (addPt acc.1 recipient 1, acc.2.1 ++ [(giver, recipient)], c')

/-- `runEpisodeSix(queensInEpisode, rng)`: two maxi-challenge winners
(+2 each), a lip-sync between them (+1), and one MVQ peer award (+1) from
each non-winner to a uniformly chosen other competitor. -/
def runEpisodeSix (queensInEpisode : List String) (s : Rng) (c : Nat)
    (fuel : Nat) : Option (EpisodeOut × Nat) :=
  let pts0 : Points := queensInEpisode.map fun q => (q, 0)
  match chooseTwoWinners queensInEpisode s c fuel with
  | none => none
  | some (winners, c1) =>
    let pts1 := winners.foldl (fun p w => addPt p w 2) pts0
    let lipIndex := (pickRandomIndex winners.length s c1).1
    let c2 := (pickRandomIndex winners.length s c1).2
    let lipWinner := winners.getD lipIndex ""
    let pts2 := addPt pts1 lipWinner 1
    let remaining := queensInEpisode.filter fun q => ¬ winners.contains q
    let res := remaining.foldl (mvqStep queensInEpisode s) (pts2, [], c2)
    some (⟨res.1, winners, lipWinner, res.2.1⟩, res.2.2)

/-! ### Standings: the `rankByPoints` comparator and sort -/

/-- Lexicographic comparison of lists by a base comparison. -/
def cmpLex {α : Type} (cmp : α → α → Ordering) : List α → List α → Ordering
  | [], [] => Ordering.eq
  | [], _ :: _ => Ordering.lt
  | _ :: _, [] => Ordering.gt
  | a :: as, b :: bs =>
    match cmp a b with
    | Ordering.eq => cmpLex cmp as bs
    | o => o

/-- Comparison of characters by Unicode code point. -/
def cmpChar (a b : Char) : Ordering :=
  if a = b then Ordering.eq
  else if a < b then Ordering.lt
  else Ordering.gt

/-- Comparison of case flags, lowercase (`false`) first. -/
def cmpBool : Bool → Bool → Ordering
  | false, false => Ordering.eq
  | true, true => Ordering.eq
  | false, true => Ordering.lt
  | true, false => Ordering.gt

/-- Modelled from the host platform: `String.prototype.localeCompare`
(the source calls it in `rankByPoints`; its code is not part of this
repository).  ECMA-262 leaves `localeCompare` implementation-defined, but
every CLDR/UCA-based locale compares ASCII strings case-insensitively at
the primary level and breaks exact primary ties by case, lowercase before
uppercase in the root collation; strings equal at every collation level
are identical for ASCII, so the final code-point level below never fires
on ASCII and only makes the model a total order on all of `String`.
On same-case ASCII names the model agrees with code-point order; on
mixed-case names it deliberately differs from code-point order, exactly
as `localeCompare` does (e.g. `"a"` sorts before `"B"`).
`lex3` chains the three collation levels. -/
def lex3 (o1 o2 o3 : Ordering) : Ordering :=
  match o1 with
  | Ordering.eq =>
    match o2 with
    | Ordering.eq => o3
    | o => o
  | o => o

def localeCompare (a b : String) : Ordering :=
  lex3
    (cmpLex cmpChar (a.data.map Char.toLower) (b.data.map Char.toLower))
    (cmpLex cmpBool (a.data.map Char.isUpper) (b.data.map Char.isUpper))
    (cmpLex cmpChar a.data b.data)

/-- The numeric comparator of `rankByPoints`:
`(a,b) => b.points - a.points || a.name.localeCompare(b.name)`. -/
def seasonCmp (x y : String × Int) : Int :=
  let d : Int := y.2 - x.2
  if d ≠ 0 then d
  else
    match localeCompare x.1 y.1 with
    | Ordering.lt => -1
    | Ordering.eq => 0
    | Ordering.gt => 1

/-- The sort order realized by the comparator: "the comparator does not
ask to put `y` before `x`". -/
def seasonLE (x y : String × Int) : Prop := seasonCmp x y ≤ 0

instance : DecidableRel seasonLE := fun _ _ => Int.decLe _ _

/-- `rankByPoints(pointsObj)`: map the object's entries (key-insertion
order) to `{name, points}` records and sort with the comparator.
`Array.prototype.sort` is required to be a stable comparison sort, and
`seasonCmp` is a total preorder that is antisymmetric on records
(mutually-≤ records are equal), so every sorting algorithm returns the
same list; insertion sort realizes it. -/
def rankByPoints (pointsObj : Points) : Points :=
  pointsObj.insertionSort seasonLE

/-- The ordering asserted by the claim under test (not by the source):
descending points, ties broken by ascending code-point order of names
(`cmpLex cmpChar` on the character data is exactly code-point
lexicographic order). -/
def codePointTieLE (x y : String × Int) : Prop :=
  y.2 < x.2 ∨ (x.2 = y.2 ∧ cmpLex cmpChar x.1.data y.1.data ≠ Ordering.gt)

/-- The ordering the source actually sorts by: descending points, ties
broken ascending by `localeCompare`. -/
def localeTieLE (x y : String × Int) : Prop :=
  y.2 < x.2 ∨ (x.2 = y.2 ∧ localeCompare x.1 y.1 ≠ Ordering.gt)

/-- Strict version of `localeTieLE` (what "no unresolved ties" amounts
to for entries with distinct names). -/
def localeTieLT (x y : String × Int) : Prop :=
  y.2 < x.2 ∨ (x.2 = y.2 ∧ localeCompare x.1 y.1 = Ordering.lt)

/-! ### Bracket formation -/

/-- The `for (i...) brackets[i % bracketCount].push(queens[i])` loop. -/
def sliceLoop (bracketCount : Nat) :
    List String → Nat → List (List String) → List (List String)
  | [], _, brackets => brackets
  | q :: rest, i, brackets =>
    sliceLoop bracketCount rest (i + 1)
      (brackets.set (i % bracketCount)
        (brackets.getD (i % bracketCount) [] ++ [q]))

/-- `sliceIntoBrackets(queens, bracketCount)`: round-robin distribution
into `bracketCount` initially empty brackets. -/
def sliceIntoBrackets (queens : List String) (bracketCount : Nat) :
    List (List String) :=
  sliceLoop bracketCount queens 0 (List.replicate bracketCount [])

/-! ### Season record types -/

/-- The `epRecord` object pushed to `episodes` (detail flattened). -/
structure EpisodeRecord where
  bracket : Nat
  episodeNumberInBracket : Nat
  episodeGlobalNumber : Nat
  queens : List String
  pointsThisEpisode : Points
  winners : List String
  lipSyncWinner : String
  mvqAssignments : List (String × String)
  deriving Repr, DecidableEq, Inhabited

/-- One entry of `bracketResults`. -/
structure BracketResult where
  bracketIndex : Nat
  queens : List String
  points : Points
  standings : Points
  episodes : List EpisodeRecord
  deriving Repr, DecidableEq, Inhabited

/-- One finale pairing `{a, b, winner}` / `{a, b: null, winner, bye}`. -/
structure Pairing where
  a : String
  b : Option String
  winner : String
  bye : Bool
  deriving Repr, DecidableEq, Inhabited

/-- The `meta` record; `generatedAt` is `new Date().toISOString()`. -/
structure SeasonMeta where
  format : String
  generatedAt : String
  deriving Repr, DecidableEq, Inhabited

/-- Everything `simulateAllStars10` returns except the `meta` record. -/
structure SeasonBody where
  brackets : List BracketResult
  episodes : List EpisodeRecord
  top9 : List String
  semiEliminations : List String
  finalists : List String
  finaleRounds : List (List Pairing)
  champion : String
  deriving Repr, DecidableEq, Inhabited

/-- The full season result object. -/
structure SeasonResult where
  meta : SeasonMeta
  brackets : List BracketResult
  episodes : List EpisodeRecord
  top9 : List String
  semiEliminations : List String
  finalists : List String
  finaleRounds : List (List Pairing)
  champion : String
  deriving Repr, DecidableEq, Inhabited

/-! ### The season pipeline -/

/-- The `for (ep = 1; ep <= 3; ep++)` loop of one bracket: `count`
episodes remain and `ep` is the next episode number; accumulates bracket
points and episode records. -/
def runEpisodes (bIdx0 : Nat) (bracketQueens : List String) (s : Rng)
    (fuel : Nat) : Nat → Nat → Points → List EpisodeRecord → Nat →
    Option (Points × List EpisodeRecord × Nat)
  | 0, _, bracketPoints, recs, c => some (bracketPoints, recs, c)
  | count + 1, ep, bracketPoints, recs, c =>
    match runEpisodeSix bracketQueens s c fuel with
    | none => none
    | some (episodeRes, c') =>
      let newPts := episodeRes.points.foldl
        (fun bp p => addPt bp p.1 p.2) bracketPoints
      let epRecord : EpisodeRecord :=
        { bracket := bIdx0 + 1
          episodeNumberInBracket := ep
          episodeGlobalNumber := bIdx0 * 3 + ep
          queens := bracketQueens
          pointsThisEpisode := episodeRes.points
          winners := episodeRes.winners
          lipSyncWinner := episodeRes.lipSyncWinner
          mvqAssignments := episodeRes.mvqAssignments }
      runEpisodes bIdx0 bracketQueens s fuel count (ep + 1) newPts
        (recs ++ [epRecord]) c'

/-- The `brackets.forEach((bracketQueens, bracketIndex) => ...)` loop:
runs three episodes per bracket and builds `bracketResults` and the
chronological `episodes` list. -/
def runBrackets (s : Rng) (fuel : Nat) :
    List (List String) → Nat → List BracketResult → List EpisodeRecord →
    Nat → Option (List BracketResult × List EpisodeRecord × Nat)
  | [], _, bracketResults, episodes, c => some (bracketResults, episodes, c)
  | bracketQueens :: rest, bIdx0, bracketResults, episodes, c =>
    match runEpisodes bIdx0 bracketQueens s fuel 3 1
        (bracketQueens.map fun q => (q, 0)) [] c with
    | none => none
    | some (bracketPoints, bracketEpisodeDetails, c') =>
      let br : BracketResult :=
        { bracketIndex := bIdx0 + 1
          queens := bracketQueens
          points := bracketPoints
          standings := rankByPoints bracketPoints
          episodes := bracketEpisodeDetails }
      runBrackets s fuel rest (bIdx0 + 1) (bracketResults ++ [br])
        (episodes ++ bracketEpisodeDetails) c'

/-- The semifinal `for (i = 0; i < 2; i++)` splice loop: removes a
uniformly drawn index from the pool, recording the eliminated name. -/
def semiLoop (s : Rng) : Nat → List String → List String → Nat →
    List String × List String × Nat
  | 0, pool, elims, c => (pool, elims, c)
  | n + 1, pool, elims, c =>
    let elimIndex := (pickRandomIndex pool.length s c).1
    let eliminated := pool.getD elimIndex ""
    semiLoop s n (pool.eraseIdx elimIndex) (elims ++ [eliminated]) (c + 1)

/-- `[arr[i], arr[j]] = [arr[j], arr[i]]` (both reads before writes). -/
def swapL (l : List String) (i j : Nat) : List String :=
  (l.set i (l.getD j "")).set j (l.getD i "")

/-- The Fisher-Yates loop of `shuffle`: the third argument is the current
index `i`, counting down to 1. -/
def shuffleLoop (s : Rng) : List String → Nat → Nat → List String × Nat
  | l, c, 0 => (l, c)
  | l, c, i + 1 =>
    shuffleLoop s (swapL l (i + 1) (floorMul (s c) (i + 2))) (c + 1) i

/-- `shuffle(arr)`: Fisher-Yates from index `length - 1` down to 1. -/
def shuffle (l : List String) (s : Rng) (c : Nat) : List String × Nat :=
  shuffleLoop s l c (l.length - 1)

/-- One finale round: pair consecutive entries, drawing one value per
real pair (`< 0.5` means the first entry wins); a final unpaired entry
gets a bye.  Returns (next round, recorded pairings, cursor). -/
def runRound (s : Rng) : List String → Nat → List String × List Pairing × Nat
  | [], c => ([], [], c)
  | [x], c => ([x], [{ a := x, b := none, winner := x, bye := true }], c)
  | x :: y :: rest, c =>
    let winner := if lessHalf (s c) then x else y
    let tailRes := runRound s rest (c + 1)
    (winner :: tailRes.1,
      { a := x, b := some y, winner := winner, bye := false } :: tailRes.2.1,
      tailRes.2.2)

/-- The body of the `while (finalContestants.length > 1)` loop, with an
iteration bound as the structural recursion handle.  Each pass strictly
shrinks a list of length `> 1` (to `(length+1)/2`), so `l.length` passes
always suffice: `finaleLoop` below satisfies the loop's defining
equation (`finaleLoop_eq`) and so is exactly the `while` loop. -/
def finaleGo (s : Rng) :
    Nat → List String → Nat → List (List Pairing) × List String × Nat
  | 0, l, c => ([], l, c)
  | n + 1, l, c =>
    if 1 < l.length then
      let r := runRound s l c
      let rest := finaleGo s n r.1 r.2.2
      (r.2.1 :: rest.1, rest.2.1, rest.2.2)
    else ([], l, c)

/-- The `while (finalContestants.length > 1)` loop: repeat `runRound`
until at most one contestant remains, recording every round. -/
def finaleLoop (s : Rng) (l : List String) (c : Nat) :
    List (List Pairing) × List String × Nat :=
  finaleGo s l.length l c

/-- `simulateAllStars10` minus the `meta` record.  The input is the
already-normalized name list (the source's normalization maps each entry
to its name and preserves the count).  `bracketCountOpt = 0` /
`bracketSizeOpt = 0` encode absent options, mirroring `options.x || d`
(JS `0` is falsy).  `Except.error` is the thrown configuration error;
`Except.ok none` means a rejection-sampling loop was still running after
`fuel` redraws. -/
def simulateSeason (queenNames : List String) (s : Rng)
    (bracketCountOpt bracketSizeOpt fuel : Nat) :
    Except String (Option SeasonBody) :=
  let bracketCount := if bracketCountOpt = 0 then 3 else bracketCountOpt
  let bracketSize := if bracketSizeOpt = 0 then 6 else bracketSizeOpt
  if queenNames.length ≠ bracketCount * bracketSize then
    Except.error ("AllStars10 expects exactly "
      ++ toString (bracketCount * bracketSize)
      ++ " queens by default (currently got "
      ++ toString queenNames.length ++ ").")
  else
    match runBrackets s fuel (sliceIntoBrackets queenNames bracketCount)
        0 [] [] 0 with
    | none => Except.ok none
    | some (bracketResults, episodes, c1) =>
      let top9 := bracketResults.foldl
        (fun acc br => acc ++ (br.standings.take 3).map Prod.fst) []
      let semiRes := semiLoop s 2 top9 [] c1
      let shuffled := shuffle semiRes.1 s semiRes.2.2
      let finale := finaleLoop s shuffled.1 shuffled.2
      Except.ok (some
        { brackets := bracketResults
          episodes := episodes
          top9 := top9
          semiEliminations := semiRes.2.1
          finalists := semiRes.1
          finaleRounds := finale.1
          champion := finale.2.1.getD 0 "" })

/-- `simulateAllStars10(initialQueens, options)`: the season body plus the
`meta` record; `now` is the wall-clock reading the source obtains from
`new Date().toISOString()` at return time. -/
def simulateAllStars10 (queenNames : List String) (s : Rng)
    (bracketCountOpt bracketSizeOpt fuel : Nat) (now : String) :
    Except String (Option SeasonResult) :=
  (simulateSeason queenNames s bracketCountOpt bracketSizeOpt fuel).map
    (Option.map fun b =>
      { meta := { format := "All Stars 10 (custom)", generatedAt := now }
        brackets := b.brackets
        episodes := b.episodes
        top9 := b.top9
        semiEliminations := b.semiEliminations
        finalists := b.finalists
        finaleRounds := b.finaleRounds
        champion := b.champion })

/-! ### Observers and concrete inputs used by the analysis -/

/-- Participants entering a recorded finale round: 2 per real pairing,
1 per bye. -/
def roundParticipants (ps : List Pairing) : Nat :=
  (ps.map fun p => if p.bye then 1 else 2).sum

/-- Number of byes recorded in a finale round. -/
def byeCount (ps : List Pairing) : Nat := (ps.filter fun p => p.bye).length

/-- A recorded draw stream cycling through m/8 for m = 0..7. -/
def rngA : Rng := fun i => (i % 8, 3)

/-- A recorded draw stream: 2/8 at position 1, else 0 (used to steer all
four peer awards onto a challenge winner). -/
def rngB : Rng := fun i => (if i = 1 then 2 else 0, 3)

/-- The constantly-zero draw stream (a legal RNG per the contract). -/
def rngZero : Rng := fun _ => (0, 1)

/-- A six-competitor group. -/
def qs6 : List String := ["a", "b", "c", "d", "e", "f"]

/-- Eighteen distinct competitor names. -/
def names18 : List String :=
  ["q01", "q02", "q03", "q04", "q05", "q06", "q07", "q08", "q09",
   "q10", "q11", "q12", "q13", "q14", "q15", "q16", "q17", "q18"]

/-- The concrete episode produced by `qs6` and `rngA`. -/
def erA : EpisodeOut := ((runEpisodeSix qs6 rngA 0 10).getD default).1

/-- The concrete episode produced by `qs6` and `rngB`. -/
def erB : EpisodeOut := ((runEpisodeSix qs6 rngB 0 10).getD default).1

/-- Seventeen distinct competitor names (one short of the default 18). -/
def names17 : List String := names18.take 17

/-- Replaces the generation timestamp by a fixed value: the part of a
`SeasonResult` that does not depend on the wall clock. -/
def stripTime (r : SeasonResult) : SeasonResult :=
  { r with meta := { format := r.meta.format, generatedAt := "" } }

instance (x y : String × Int) : Decidable (codePointTieLE x y) :=
  decidable_of_iff
    (y.2 < x.2 ∨ (x.2 = y.2 ∧ cmpLex cmpChar x.1.data y.1.data ≠ Ordering.gt))
    Iff.rfl

instance (x y : String × Int) : Decidable (localeTieLE x y) :=
  decidable_of_iff (y.2 < x.2 ∨ (x.2 = y.2 ∧ localeCompare x.1 y.1 ≠ Ordering.gt))
    Iff.rfl

instance (x y : String × Int) : Decidable (localeTieLT x y) :=
  decidable_of_iff (y.2 < x.2 ∨ (x.2 = y.2 ∧ localeCompare x.1 y.1 = Ordering.lt))
    Iff.rfl

/-- Extracts the season body of a successful run (`default` otherwise). -/
def okBody : Except String (Option SeasonBody) → SeasonBody
  | Except.ok (some b) => b
  | _ => default

/-- The concrete season produced by `names18` and `rngA` with default
configuration. -/
def seasonA : SeasonBody := okBody (simulateSeason names18 rngA 0 0 20)

instance {eps alpha : Type} [DecidableEq eps] [DecidableEq alpha] :
    DecidableEq (Except eps alpha) := fun x y =>
  match x, y with
  | Except.error a, Except.error b => decidable_of_iff (a = b) (by simp)
  | Except.ok a, Except.ok b => decidable_of_iff (a = b) (by simp)
  | Except.error _, Except.ok _ => isFalse fun h => Except.noConfusion h
  | Except.ok _, Except.error _ => isFalse fun h => Except.noConfusion h

/-- Extracts the full result of a successful run (`default` otherwise). -/
def okSeason : Except String (Option SeasonResult) → SeasonResult
  | Except.ok (some r) => r
  | _ => default

/-- The concrete season result produced at clock reading `"T1"`. -/
def seasonT1 : SeasonResult :=
  okSeason (simulateAllStars10 names18 rngA 0 0 20 "T1")

/-- The concrete season result produced at clock reading `"T2"`. -/
def seasonT2 : SeasonResult :=
  okSeason (simulateAllStars10 names18 rngA 0 0 20 "T2")

/-! ### Basic lemmas about the RNG primitives -/

theorem floorMul_lt {d : Nat × Nat} {n : Nat} (hd : d.1 < 2 ^ d.2)
    (hn : 0 < n) : floorMul d n < n := by
  unfold floorMul
  rw [Nat.div_lt_iff_lt_mul (Nat.pos_pow_of_pos _ (by norm_num))]
  calc d.1 * n < 2 ^ d.2 * n := Nat.mul_lt_mul_of_pos_right hd hn
    _ = n * 2 ^ d.2 := Nat.mul_comm _ _


theorem rejectLoop_spec {len a : Nat} {s : Rng} {fuel c b c' : Nat}
    (h : rejectLoop len a s c fuel = some (b, c')) :
    b ≠ a ∧ ∃ j, b = floorMul (s j) len := by
  induction fuel generalizing c with
  | zero => simp [rejectLoop] at h
  | succ n ih =>
    rw [rejectLoop] at h
    by_cases hb : floorMul (s c) len = a
    · rw [if_pos hb] at h
      exact ih h
    · rw [if_neg hb] at h
      simp only [Option.some.injEq, Prod.mk.injEq] at h
      exact ⟨h.1 ▸ hb, c, h.1.symm⟩

theorem chooseTwoWinners_spec {qs : List String} {s : Rng} {c fuel : Nat}
    {ws : List String} {c' : Nat}
    (hs : RngContract s) (hlen : 2 ≤ qs.length)
    (h : chooseTwoWinners qs s c fuel = some (ws, c')) :
    ∃ ia ib : Nat, ia < qs.length ∧ ib < qs.length ∧ ia ≠ ib ∧
      ws = [qs.getD ia "", qs.getD ib ""] := by
  unfold chooseTwoWinners at h
  split at h
  · omega
  · simp only [] at h
    split at h
    · exact absurd h (by simp)
    · next b c'' heq =>
      obtain ⟨hne, j, hbj⟩ := rejectLoop_spec heq
      simp only [Option.some.injEq, Prod.mk.injEq] at h
      refine ⟨floorMul (s c) qs.length, b, ?_, ?_, ?_, ?_⟩
      · exact floorMul_lt (hs c) (by omega)
      · exact hbj ▸ floorMul_lt (hs j) (by omega)
      · exact fun hh => hne hh.symm
      · exact h.1.symm

/-! ### Lemmas about the points association list -/

theorem addPt_cons (p : String × Int) (t : Points) (q : String) (d : Int) :
    addPt (p :: t) q d =
      (if p.1 = q then (p.1, p.2 + d) else p) :: addPt t q d := rfl

theorem getPt_cons (p : String × Int) (t : Points) (q : String) :
    getPt (p :: t) q = if p.1 = q then p.2 else getPt t q := by
  by_cases h : p.1 = q
  · simp [getPt, List.find?_cons_of_pos, h]
  · rw [if_neg h]
    unfold getPt
    rw [List.find?_cons_of_neg _ (by simp [h])]

theorem addPt_keys (pts : Points) (q : String) (d : Int) :
    (addPt pts q d).map Prod.fst = pts.map Prod.fst := by
  induction pts with
  | nil => rfl
  | cons p t ih =>
    rw [addPt_cons, List.map_cons, List.map_cons, ih]
    by_cases h : p.1 = q
    · rw [if_pos h]
    · rw [if_neg h]

theorem addPt_of_not_mem {pts : Points} {q : String}
    (hq : q ∉ pts.map Prod.fst) (d : Int) : addPt pts q d = pts := by
  induction pts with
  | nil => rfl
  | cons p t ih =>
    simp only [List.map_cons, List.mem_cons, not_or] at hq
    rw [addPt_cons, if_neg (fun hh => hq.1 hh.symm), ih hq.2]

theorem getPt_addPt_self {pts : Points} {q : String}
    (hq : q ∈ pts.map Prod.fst) (d : Int) :
    getPt (addPt pts q d) q = getPt pts q + d := by
  induction pts with
  | nil => simp at hq
  | cons p t ih =>
    rw [addPt_cons]
    by_cases hp : p.1 = q
    · rw [if_pos hp]
      simp [getPt_cons, hp]
    · rw [if_neg hp, getPt_cons, getPt_cons, if_neg hp, if_neg hp]
      simp only [List.map_cons, List.mem_cons] at hq
      rcases hq with hq | hq
      · exact absurd hq.symm hp
      · exact ih hq

theorem getPt_addPt_ne (pts : Points) {q q' : String} (h : q' ≠ q) (d : Int) :
    getPt (addPt pts q d) q' = getPt pts q' := by
  induction pts with
  | nil => rfl
  | cons p t ih =>
    rw [addPt_cons]
    by_cases hp : p.1 = q
    · have hp' : ¬ p.1 = q' := fun hh => h (hh.symm.trans hp)
      rw [if_pos hp, getPt_cons, getPt_cons, if_neg hp', if_neg hp', ih]
    · rw [if_neg hp, getPt_cons, getPt_cons]
      by_cases hp' : p.1 = q'
      · rw [if_pos hp', if_pos hp']
      · rw [if_neg hp', if_neg hp', ih]

theorem addPt_sum {pts : Points} {q : String}
    (hnd : (pts.map Prod.fst).Nodup) (hq : q ∈ pts.map Prod.fst) (d : Int) :
    ((addPt pts q d).map Prod.snd).sum = (pts.map Prod.snd).sum + d := by
  induction pts with
  | nil => simp at hq
  | cons p t ih =>
    simp only [List.map_cons, List.nodup_cons] at hnd
    simp only [List.map_cons, List.mem_cons] at hq
    rw [addPt_cons]
    by_cases h : p.1 = q
    · rw [if_pos h, addPt_of_not_mem (h ▸ hnd.1) d]
      simp only [List.map_cons, List.sum_cons]
      ring
    · rw [if_neg h]
      simp only [List.map_cons, List.sum_cons]
      rcases hq with hq | hq
      · exact absurd hq.symm h
      · rw [ih hnd.2 hq]
        ring

/-! ### Helpers for the episode simulator -/

theorem filter_ne_pos {qs : List String} (hnd : qs.Nodup) (h2 : 2 ≤ qs.length)
    (g : String) : 0 < (qs.filter fun x => x ≠ g).length := by
  match qs, hnd, h2 with
  | a :: b :: t, hnd, _ =>
    have hab : a ≠ b := by
      simp only [List.nodup_cons, List.mem_cons] at hnd
      exact fun hh => hnd.1 (Or.inl hh)
    by_cases ha : a = g
    · have hb : b ∈ (a :: b :: t).filter fun x => x ≠ g := by
        simp [List.mem_filter]
        exact fun hh => hab (ha ▸ hh ▸ rfl)
      exact List.length_pos.mpr (List.ne_nil_of_mem hb)
    · have hb : a ∈ (a :: b :: t).filter fun x => x ≠ g := by
        simp [List.mem_filter, ha]
      exact List.length_pos.mpr (List.ne_nil_of_mem hb)

theorem length_filter_not_add {α : Type} (p : α → Bool) (l : List α) :
    (l.filter p).length + (l.filter fun a => ¬ p a).length = l.length := by
  induction l with
  | nil => rfl
  | cons a t ih =>
    simp only [List.filter_cons]
    by_cases h : p a = true
    · rw [if_pos h, if_neg (by simp [h])]
      simp only [List.length_cons]
      omega
    · rw [if_neg h, if_pos (by simp [h])]
      simp only [List.length_cons]
      omega

theorem getPt_init (qs : List String) (x : String) :
    getPt (qs.map fun q => ((q, 0) : String × Int)) x = 0 := by
  induction qs with
  | nil => rfl
  | cons a t ih =>
    rw [List.map_cons, getPt_cons]
    by_cases h : a = x <;> simp [h, ih]

theorem sum_init (qs : List String) :
    (((qs.map fun q => ((q, 0) : String × Int)).map Prod.snd).sum) = 0 := by
  induction qs with
  | nil => rfl
  | cons a t ih => simpa using ih

theorem keys_init (qs : List String) :
    ((qs.map fun q => ((q, 0) : String × Int)).map Prod.fst) = qs := by
  induction qs with
  | nil => rfl
  | cons a t ih => simp only [List.map_cons, ih]

/-- Invariant of the `remaining.forEach` MVQ loop. -/
theorem mvqFold_spec {qs : List String} {s : Rng}
    (hs : RngContract s) (hnd : qs.Nodup) (hlen2 : 2 ≤ qs.length) :
    ∀ (givers : List String) (pts : Points) (mv : List (String × String))
      (c : Nat), pts.map Prod.fst = qs →
    ∃ extra : List (String × String),
      (givers.foldl (mvqStep qs s) (pts, mv, c)).1.map Prod.fst = qs ∧
      (givers.foldl (mvqStep qs s) (pts, mv, c)).2.1 = mv ++ extra ∧
      extra.map Prod.fst = givers ∧
      (∀ pr ∈ extra, pr.2 ∈ qs ∧ pr.2 ≠ pr.1) ∧
      ((givers.foldl (mvqStep qs s) (pts, mv, c)).1.map Prod.snd).sum
        = (pts.map Prod.snd).sum + givers.length ∧
      (∀ x, getPt (givers.foldl (mvqStep qs s) (pts, mv, c)).1 x
        = getPt pts x + ((extra.filter fun pr => pr.2 = x).length : Int)) := by
  intro givers
  induction givers with
  | nil => exact fun pts mv c hk => ⟨[], by simpa using hk, by simp, rfl,
      by simp, by simp, by simp⟩
  | cons g rest ih =>
    intro pts mv c hk
    have hplen : 0 < (qs.filter fun x => x ≠ g).length := filter_ne_pos hnd hlen2 g
    have hri : floorMul (s c) (qs.filter fun x => x ≠ g).length
        < (qs.filter fun x => x ≠ g).length := floorMul_lt (hs c) hplen
    set possible := qs.filter fun x => x ≠ g with hposs
    set r := possible.getD (floorMul (s c) possible.length) "" with hr
    have hrmem : r ∈ possible := by
      rw [hr, List.getD_eq_getElem _ _ hri]
      exact List.getElem_mem _
    have hrqs : r ∈ qs := List.mem_of_mem_filter hrmem
    have hrg : r ≠ g := by
      have := List.of_mem_filter hrmem
      simpa using this
    have hstep : (g :: rest).foldl (mvqStep qs s) (pts, mv, c)
        = rest.foldl (mvqStep qs s) (addPt pts r 1, mv ++ [(g, r)], c + 1) := by
      rw [List.foldl_cons]
      rfl
    have hk' : (addPt pts r 1).map Prod.fst = qs := by rw [addPt_keys, hk]
    obtain ⟨extra, e1, e2, e3, e4, e5, e6⟩ :=
      ih (addPt pts r 1) (mv ++ [(g, r)]) (c + 1) hk'
    refine ⟨(g, r) :: extra, ?_, ?_, ?_, ?_, ?_, ?_⟩
    · rw [hstep]; exact e1
    · rw [hstep, e2, List.append_assoc]; rfl
    · simp [e3]
    · intro pr hpr
      rcases List.mem_cons.mp hpr with hpr | hpr
      · rw [hpr]; exact ⟨hrqs, hrg⟩
      · exact e4 pr hpr
    · rw [hstep, e5, addPt_sum (hk ▸ hnd) (hk ▸ hrqs) 1]
      simp only [List.length_cons]
      push_cast
      ring
    · intro x
      rw [hstep, e6 x]
      by_cases hx : r = x
      · rw [hx, getPt_addPt_self (hk ▸ (hx ▸ hrqs)) 1]
        simp only [List.filter_cons]
        rw [if_pos (by simp)]
        simp only [List.length_cons]
        push_cast
        ring
      · rw [getPt_addPt_ne _ (fun hh => hx hh.symm) 1]
        simp only [List.filter_cons]
        rw [if_neg (by simp [hx])]

theorem filter_contains_pair_length {l : List String} (hnd : l.Nodup)
    {a b : String} (ha : a ∈ l) (hb : b ∈ l) (hab : a ≠ b) :
    (l.filter fun x => ([a, b] : List String).contains x).length = 2 := by
  have hperm : (l.filter fun x => ([a, b] : List String).contains x).Perm
      [a, b] := by
    rw [List.perm_ext_iff_of_nodup (hnd.filter _) (by simp [hab])]
    intro x
    simp only [List.mem_filter, List.mem_cons, List.not_mem_nil, or_false]
    constructor
    · intro hx
      have := hx.2
      simpa using this
    · intro hx
      rcases hx with hx | hx
      · exact ⟨hx ▸ ha, by simp [hx]⟩
      · exact ⟨hx ▸ hb, by simp [hx]⟩
  simpa using hperm.length_eq

/-- Master specification of `runEpisodeSix` on a six-competitor group, for
any contract-satisfying draw stream on which it returns. -/
theorem runEpisodeSix_spec {qs : List String} {s : Rng} {c fuel : Nat}
    {er : EpisodeOut} {c' : Nat}
    (hs : RngContract s) (hnd : qs.Nodup) (h6 : qs.length = 6)
    (h : runEpisodeSix qs s c fuel = some (er, c')) :
    ∃ w1 w2 : String,
      er.winners = [w1, w2] ∧ w1 ≠ w2 ∧ w1 ∈ qs ∧ w2 ∈ qs ∧
      er.lipSyncWinner ∈ er.winners ∧
      er.points.map Prod.fst = qs ∧
      er.mvqAssignments.map Prod.fst
        = (qs.filter fun q => ¬ er.winners.contains q) ∧
      (∀ pr ∈ er.mvqAssignments, pr.2 ∈ qs ∧ pr.2 ≠ pr.1) ∧
      (er.points.map Prod.snd).sum = 9 ∧
      (∀ w ∈ er.winners, getPt er.points w =
        (if er.lipSyncWinner = w then 3 else 2)
          + ((er.mvqAssignments.filter fun pr => pr.2 = w).length : Int)) := by
  unfold runEpisodeSix at h
  simp only [] at h
  split at h
  · exact absurd h (by simp)
  · next winners c1 heq =>
    obtain ⟨ia, ib, hia, hib, hne, hws⟩ :=
      chooseTwoWinners_spec hs (by omega) heq
    set w1 := qs.getD ia "" with hw1
    set w2 := qs.getD ib "" with hw2
    have hw1q : w1 ∈ qs := by
      rw [hw1, List.getD_eq_getElem _ _ hia]; exact List.getElem_mem _
    have hw2q : w2 ∈ qs := by
      rw [hw2, List.getD_eq_getElem _ _ hib]; exact List.getElem_mem _
    have hw12 : w1 ≠ w2 := by
      rw [hw1, hw2, List.getD_eq_getElem _ _ hia, List.getD_eq_getElem _ _ hib]
      exact fun hh => hne ((hnd.getElem_inj_iff).mp hh)
    subst hws
    simp only [Option.some.injEq, Prod.mk.injEq] at h
    obtain ⟨her, _⟩ := h
    -- names for the intermediate stages
    set pts0 : Points := qs.map fun q => (q, 0) with hpts0
    set pts1 := ([w1, w2]).foldl (fun p w => addPt p w 2) pts0 with hpts1
    have hpts1' : pts1 = addPt (addPt pts0 w1 2) w2 2 := by
      rw [hpts1]; rfl
    have hlip2 : floorMul (s c1) (([w1, w2] : List String).length)
        < ([w1, w2] : List String).length := floorMul_lt (hs c1) (by simp)
    set lipW := ([w1, w2] : List String).getD
      (pickRandomIndex ([w1, w2] : List String).length s c1).1 "" with hlipW
    have hlipmem : lipW ∈ ([w1, w2] : List String) := by
      rw [hlipW]
      rw [List.getD_eq_getElem _ _ (by exact hlip2)]
      exact List.getElem_mem _
    set pts2 := addPt pts1 lipW 1 with hpts2
    set remaining := qs.filter fun q => ¬ ([w1, w2] : List String).contains q
      with hrem
    have hk0 : pts0.map Prod.fst = qs := keys_init qs
    have hk1 : pts1.map Prod.fst = qs := by
      rw [hpts1', addPt_keys, addPt_keys, hk0]
    have hk2 : pts2.map Prod.fst = qs := by rw [hpts2, addPt_keys, hk1]
    obtain ⟨extra, e1, e2, e3, e4, e5, e6⟩ :=
      mvqFold_spec hs hnd (by omega) remaining pts2 [] _ hk2
    have hremlen : remaining.length = 4 := by
      have hc := length_filter_not_add
        (fun q => ([w1, w2] : List String).contains q) qs
      have hp := filter_contains_pair_length hnd hw1q hw2q hw12
      rw [hrem]
      omega
    -- point totals of the two winners after the lip-sync stage
    have hg0 : ∀ x, getPt pts0 x = 0 := fun x => getPt_init qs x
    have hgw1 : getPt pts1 w1 = 2 := by
      rw [hpts1', getPt_addPt_ne _ hw12 2,
        getPt_addPt_self (hk0 ▸ hw1q) 2, hg0]
      norm_num
    have hgw2 : getPt pts1 w2 = 2 := by
      rw [hpts1', getPt_addPt_self ((addPt_keys pts0 w1 2).symm ▸ hk0 ▸ hw2q) 2,
        getPt_addPt_ne _ (fun hh => hw12 hh.symm) 2, hg0]
      norm_num
    have hg2 : ∀ w ∈ ([w1, w2] : List String),
        getPt pts2 w = (if lipW = w then 3 else 2) := by
      intro w hw
      have hwq : w ∈ qs := by
        rcases List.mem_cons.mp hw with hh | hh
        · exact hh ▸ hw1q
        · simp only [List.mem_cons, List.not_mem_nil, or_false] at hh
          exact hh ▸ hw2q
      have hgw : getPt pts1 w = 2 := by
        rcases List.mem_cons.mp hw with hh | hh
        · exact hh ▸ hgw1
        · simp only [List.mem_cons, List.not_mem_nil, or_false] at hh
          exact hh ▸ hgw2
      by_cases hl : lipW = w
      · rw [if_pos hl, hpts2, hl, getPt_addPt_self (hk1 ▸ hwq) 1, hgw]
        norm_num
      · rw [if_neg hl, hpts2, getPt_addPt_ne _ (fun hh => hl hh.symm) 1, hgw]
    refine ⟨w1, w2, ?_, hw12, hw1q, hw2q, ?_, ?_, ?_, ?_, ?_, ?_⟩
    · rw [← her]
    · rw [← her]; exact hlipmem
    · rw [← her]; exact e1
    · rw [← her]
      simp only
      rw [e2, List.nil_append, e3]
    · rw [← her]
      simp only
      intro pr hpr
      rw [e2, List.nil_append] at hpr
      exact e4 pr hpr
    · rw [← her]
      simp only
      rw [e5]
      have hs0 : (pts0.map Prod.snd).sum = 0 := sum_init qs
      have hs1 : (pts1.map Prod.snd).sum = 4 := by
        rw [hpts1', addPt_sum ((addPt_keys pts0 w1 2).symm ▸ hk0 ▸ hnd)
          ((addPt_keys pts0 w1 2).symm ▸ hk0 ▸ hw2q) 2,
          addPt_sum (hk0 ▸ hnd) (hk0 ▸ hw1q) 2, hs0]
        norm_num
      have hs2 : (pts2.map Prod.snd).sum = 5 := by
        have hlq : lipW ∈ qs := by
          rcases List.mem_cons.mp hlipmem with hh | hh
          · exact hh ▸ hw1q
          · simp only [List.mem_cons, List.not_mem_nil, or_false] at hh
            exact hh ▸ hw2q
        rw [hpts2, addPt_sum (hk1 ▸ hnd) (hk1 ▸ hlq) 1, hs1]
        norm_num
      rw [hs2, hremlen]
      norm_num
    · rw [← her]
      simp only
      intro w hw
      rw [e6 w, e2, List.nil_append, hg2 w hw]

/-! ### The finale loop satisfies the while-loop equation -/

theorem runRound_length (s : Rng) : ∀ (l : List String) (c : Nat),
    (runRound s l c).1.length = (l.length + 1) / 2 := by
  have key : ∀ (n : Nat) (m : List String) (cc : Nat), m.length ≤ n →
      (runRound s m cc).1.length = (m.length + 1) / 2 := by
    intro n
    induction n with
    | zero =>
      intro m cc hm
      cases m with
      | nil => simp [runRound]
      | cons x t => exact absurd hm (by simp)
    | succ n ih =>
      intro m cc hm
      cases m with
      | nil => simp [runRound]
      | cons x t =>
        cases t with
        | nil => simp [runRound]
        | cons y rest =>
          simp only [runRound, List.length_cons]
          rw [ih rest (cc + 1) (by simp only [List.length_cons] at hm; omega)]
          omega
  exact fun l c => key l.length l c le_rfl

theorem finaleGo_of_le_one {s : Rng} {l : List String} {c : Nat}
    (h : ¬ 1 < l.length) : ∀ n, finaleGo s n l c = ([], l, c) := by
  intro n
  cases n with
  | zero => rfl
  | succ n => rw [finaleGo, if_neg h]

theorem finaleGo_congr (s : Rng) : ∀ (bound : Nat) (l : List String)
    (n m c : Nat), l.length ≤ bound → l.length ≤ n → l.length ≤ m →
    finaleGo s n l c = finaleGo s m l c := by
  intro bound
  induction bound with
  | zero =>
    intro l n m c h0 _ _
    have hl : ¬ 1 < l.length := by omega
    rw [finaleGo_of_le_one hl, finaleGo_of_le_one hl]
  | succ bound ih =>
    intro l n m c h0 hn hm
    by_cases hl : 1 < l.length
    · obtain ⟨n', rfl⟩ : ∃ n', n = n' + 1 := ⟨n - 1, by omega⟩
      obtain ⟨m', rfl⟩ : ∃ m', m = m' + 1 := ⟨m - 1, by omega⟩
      rw [finaleGo, finaleGo, if_pos hl, if_pos hl]
      have hr : (runRound s l c).1.length = (l.length + 1) / 2 :=
        runRound_length s l c
      have hcong := ih (runRound s l c).1 n' m' (runRound s l c).2.2
        (by omega) (by omega) (by omega)
      simp only []
      rw [hcong]
    · rw [finaleGo_of_le_one hl, finaleGo_of_le_one hl]

/-- The fuel-free characterization: `finaleLoop` satisfies the defining
equation of the source's `while` loop. -/
theorem finaleLoop_eq (s : Rng) (l : List String) (c : Nat) :
    finaleLoop s l c =
      if 1 < l.length then
        (((runRound s l c).2.1 ::
            (finaleLoop s (runRound s l c).1 (runRound s l c).2.2).1),
          (finaleLoop s (runRound s l c).1 (runRound s l c).2.2).2.1,
          (finaleLoop s (runRound s l c).1 (runRound s l c).2.2).2.2)
      else ([], l, c) := by
  by_cases hl : 1 < l.length
  · rw [if_pos hl]
    unfold finaleLoop
    obtain ⟨n', hn⟩ : ∃ n', l.length = n' + 1 := ⟨l.length - 1, by omega⟩
    rw [hn, finaleGo, if_pos hl]
    have hr : (runRound s l c).1.length = (l.length + 1) / 2 :=
      runRound_length s l c
    simp only []
    rw [finaleGo_congr s (runRound s l c).1.length (runRound s l c).1 n'
      (runRound s l c).1.length (runRound s l c).2.2 le_rfl (by omega) le_rfl]
  · rw [if_neg hl]
    unfold finaleLoop
    exact finaleGo_of_le_one hl _

/-! ### Contract proofs for the concrete draw streams -/

theorem rngA_contract : RngContract rngA := by
  intro i
  show i % 8 < 2 ^ 3
  exact Nat.lt_of_lt_of_le (Nat.mod_lt _ (by norm_num)) (by norm_num)

theorem rngB_contract : RngContract rngB := by
  intro i
  show (if i = 1 then 2 else 0) < 2 ^ 3
  by_cases h : i = 1 <;> simp [h]

theorem rngZero_contract : RngContract rngZero := by
  intro i
  show 0 < 2 ^ 1
  norm_num

/-! ### Claim C2: episode point conservation -/

/-- C2: for every episode run on exactly six (distinct) competitors and
every contract-satisfying recorded draw sequence on which the episode
returns, the per-episode point deltas are keyed exactly by the six
competitors and sum to exactly 9. -/
theorem episode_point_deltas_sum_nine
    {qs : List String} {s : Rng} {c fuel : Nat} {er : EpisodeOut} {c' : Nat}
    (hs : RngContract s) (hnd : qs.Nodup) (h6 : qs.length = 6)
    (h : runEpisodeSix qs s c fuel = some (er, c')) :
    er.points.map Prod.fst = qs ∧ (er.points.map Prod.snd).sum = 9 := by
  obtain ⟨w1, w2, _, _, _, _, _, hkeys, _, _, hsum, _⟩ :=
    runEpisodeSix_spec hs hnd h6 h
  exact ⟨hkeys, hsum⟩

theorem episode_point_deltas_sum_nine_witness :
    erA.points.map Prod.fst = qs6 ∧ (erA.points.map Prod.snd).sum = 9 :=
  episode_point_deltas_sum_nine rngA_contract (by decide) (by decide)
    (show runEpisodeSix qs6 rngA 0 10 = some (erA, 8) by decide)

/-! ### Claim C9: peer awards never self-directed, within the group -/

/-- C9: in every episode's recorded peer-award list, each pair has
`from ≠ to` and both members belong to the episode's six-competitor
group, for every contract-satisfying draw sequence. -/
theorem mvq_awards_no_self_within_group
    {qs : List String} {s : Rng} {c fuel : Nat} {er : EpisodeOut} {c' : Nat}
    (hs : RngContract s) (hnd : qs.Nodup) (h6 : qs.length = 6)
    (h : runEpisodeSix qs s c fuel = some (er, c')) :
    ∀ pr ∈ er.mvqAssignments, pr.1 ≠ pr.2 ∧ pr.1 ∈ qs ∧ pr.2 ∈ qs := by
  obtain ⟨w1, w2, _, _, _, _, _, _, hfrom, hto, _, _⟩ :=
    runEpisodeSix_spec hs hnd h6 h
  intro pr hpr
  have h2 := hto pr hpr
  have h1 : pr.1 ∈ qs := by
    have hm : pr.1 ∈ er.mvqAssignments.map Prod.fst :=
      List.mem_map_of_mem Prod.fst hpr
    rw [hfrom] at hm
    exact List.mem_of_mem_filter hm
  exact ⟨fun hh => h2.2 hh.symm, h1, h2.1⟩

theorem mvq_awards_no_self_within_group_witness :
    (("c", "d") : String × String).1 ≠ ("c", "d").2 ∧
    (("c", "d") : String × String).1 ∈ qs6 ∧
    (("c", "d") : String × String).2 ∈ qs6 :=
  mvq_awards_no_self_within_group rngA_contract (by decide) (by decide)
    (show runEpisodeSix qs6 rngA 0 10 = some (erA, 8) by decide)
    ("c", "d") (by decide)

/-! ### Claim C3: winners' final episode deltas -/

/-- C3 as stated is false: peer awards may also target a winner, so a
winner's final delta can exceed +3/+2.  With the draw stream `rngB`
(a legal RNG), all four peer awards go to winner `"a"`, whose final
delta is 7 — so neither winner ends at exactly +3. -/
theorem winner_final_delta_counterexample :
    RngContract rngB ∧ qs6.Nodup ∧ qs6.length = 6 ∧
    runEpisodeSix qs6 rngB 0 10 = some (erB, 7) ∧
    erB.winners = ["a", "b"] ∧ erB.lipSyncWinner = "a" ∧
    getPt erB.points "a" = 7 ∧ getPt erB.points "b" = 2 ∧
    ¬ ((getPt erB.points "a" = 3 ∧ getPt erB.points "b" = 2) ∨
       (getPt erB.points "a" = 2 ∧ getPt erB.points "b" = 3)) :=
  ⟨rngB_contract, by decide, by decide, by decide, by decide, by decide,
    by decide, by decide, by decide⟩

/-- C3 (amended): each maxi-challenge winner receives +2 and the
lip-sync winner (one of the two) +1 more, so after those stages their
deltas are +3 and +2; each winner's *final* episode delta additionally
counts the peer awards directed at them, so it is exactly +3 (lip-sync
winner) or +2 (other winner) plus the number of received peer awards. -/
theorem winner_deltas_include_peer_awards
    {qs : List String} {s : Rng} {c fuel : Nat} {er : EpisodeOut} {c' : Nat}
    (hs : RngContract s) (hnd : qs.Nodup) (h6 : qs.length = 6)
    (h : runEpisodeSix qs s c fuel = some (er, c')) :
    ∃ w1 w2 : String, er.winners = [w1, w2] ∧ w1 ≠ w2 ∧
      er.lipSyncWinner ∈ er.winners ∧
      ∀ w ∈ er.winners, getPt er.points w =
        (if er.lipSyncWinner = w then 3 else 2)
          + ((er.mvqAssignments.filter fun pr => pr.2 = w).length : Int) := by
  obtain ⟨w1, w2, hw, hne, _, _, hlip, _, _, _, _, hg⟩ :=
    runEpisodeSix_spec hs hnd h6 h
  exact ⟨w1, w2, hw, hne, hlip, hg⟩

theorem winner_deltas_include_peer_awards_witness :
    ∃ w1 w2 : String, erB.winners = [w1, w2] ∧ w1 ≠ w2 ∧
      erB.lipSyncWinner ∈ erB.winners ∧
      ∀ w ∈ erB.winners, getPt erB.points w =
        (if erB.lipSyncWinner = w then 3 else 2)
          + ((erB.mvqAssignments.filter fun pr => pr.2 = w).length : Int) :=
  winner_deltas_include_peer_awards rngB_contract (by decide) (by decide)
    (show runEpisodeSix qs6 rngB 0 10 = some (erB, 7) by decide)

/-! ### Claim C8: termination of the rejection-sampling loop -/

/-- C8 as stated is false: the constantly-zero stream satisfies the RNG
contract `0 ≤ v < 1`, yet the `do/while` rejection loop redraws forever
(returns `none` for every redraw bound), so `chooseTwoWinners`,
`runEpisodeSix` and the whole simulation never return on it. -/
theorem rejection_loop_divergence :
    RngContract rngZero ∧
    (∀ fuel c, rejectLoop 6 0 rngZero c fuel = none) ∧
    (∀ fuel, chooseTwoWinners qs6 rngZero 0 fuel = none) ∧
    (∀ fuel, runEpisodeSix qs6 rngZero 0 fuel = none) ∧
    (∀ fuel now, simulateAllStars10 names18 rngZero 0 0 fuel now
      = Except.ok none) := by
  have hloop : ∀ fuel c, rejectLoop 6 0 rngZero c fuel = none := by
    intro fuel
    induction fuel with
    | zero => intro c; rfl
    | succ n ih =>
      intro c
      rw [rejectLoop]
      simp only [rngZero, floorMul]
      norm_num
      exact ih (c + 1)
  have hchoose : ∀ fuel, chooseTwoWinners qs6 rngZero 0 fuel = none := by
    intro fuel
    unfold chooseTwoWinners
    rw [if_neg (by decide)]
    simp only []
    have : floorMul (rngZero 0) qs6.length = 0 := by decide
    rw [this, show qs6.length = 6 from rfl, hloop fuel 1]
  have hep : ∀ fuel, runEpisodeSix qs6 rngZero 0 fuel = none := by
    intro fuel
    unfold runEpisodeSix
    rw [hchoose fuel]
  refine ⟨rngZero_contract, hloop, hchoose, hep, ?_⟩
  intro fuel now
  unfold simulateAllStars10 simulateSeason
  rw [if_neg (by decide)]
  have hbr : runBrackets rngZero fuel (sliceIntoBrackets names18
      (if 0 = 0 then 3 else 0)) 0 [] [] 0 = none := by
    rw [if_pos rfl]
    show runBrackets rngZero fuel (sliceIntoBrackets names18 3) 0 [] [] 0 = none
    have hsl : sliceIntoBrackets names18 3 =
        [["q01", "q04", "q07", "q10", "q13", "q16"],
         ["q02", "q05", "q08", "q11", "q14", "q17"],
         ["q03", "q06", "q09", "q12", "q15", "q18"]] := by decide
    rw [hsl]
    unfold runBrackets
    unfold runEpisodes
    have : runEpisodeSix ["q01", "q04", "q07", "q10", "q13", "q16"] rngZero 0
        fuel = none := by
      unfold runEpisodeSix
      have hc : chooseTwoWinners ["q01", "q04", "q07", "q10", "q13", "q16"]
          rngZero 0 fuel = none := by
        unfold chooseTwoWinners
        rw [if_neg (by decide)]
        simp only []
        have h0 : floorMul (rngZero 0)
            (["q01", "q04", "q07", "q10", "q13", "q16"] : List String).length
            = 0 := by decide
        rw [h0, show (["q01", "q04", "q07", "q10", "q13", "q16"] :
          List String).length = 6 from rfl, hloop fuel 1]
      rw [hc]
    rw [this]
  rw [hbr]
  rfl

/-- C8 (amended): the rejection loop terminates precisely when some
later draw yields an index different from the first; in particular it
returns (with some redraw bound) whenever the recorded stream eventually
produces a differing index, but not for every contract-satisfying
stream. -/
theorem rejection_loop_terminates_of_differing_draw
    {len a : Nat} {s : Rng} {c : Nat}
    (h : ∃ k, floorMul (s (c + k)) len ≠ a) :
    ∃ fuel b c', rejectLoop len a s c fuel = some (b, c') := by
  obtain ⟨k, hk⟩ := h
  induction k generalizing c with
  | zero =>
    refine ⟨1, floorMul (s c) len, c + 1, ?_⟩
    rw [rejectLoop]
    simp only [if_neg (by simpa using hk)]
  | succ n ih =>
    by_cases h0 : floorMul (s c) len = a
    · obtain ⟨fuel, b, c', hf⟩ := ih (c := c + 1)
        (by rw [show c + 1 + n = c + (n + 1) by omega]; exact hk)
      refine ⟨fuel + 1, b, c', ?_⟩
      rw [rejectLoop, if_pos h0]
      exact hf
    · refine ⟨1, floorMul (s c) len, c + 1, ?_⟩
      rw [rejectLoop]
      simp only [if_neg h0]

theorem rejection_loop_terminates_of_differing_draw_witness :
    ∃ fuel b c', rejectLoop 6 0 rngA 1 fuel = some (b, c') :=
  rejection_loop_terminates_of_differing_draw ⟨1, by decide⟩

/-! ### Order lemmas for the localeCompare model -/

theorem cmpChar_eq_iff {a b : Char} : cmpChar a b = Ordering.eq ↔ a = b := by
  unfold cmpChar
  by_cases h : a = b
  · simp [h]
  · by_cases h2 : a < b <;> simp [h, h2]

theorem cmpChar_lt_iff {a b : Char} : cmpChar a b = Ordering.lt ↔ a < b := by
  unfold cmpChar
  by_cases h : a = b
  · simp [h]
  · by_cases h2 : a < b <;> simp [h, h2]

theorem cmpChar_swap (a b : Char) : cmpChar b a = (cmpChar a b).swap := by
  unfold cmpChar
  by_cases h : a = b
  · simp [h]
    rfl
  · have h' : ¬ b = a := fun hh => h hh.symm
    by_cases h2 : a < b
    · have h3 : ¬ b < a := asymm h2
      simp [h, h', h2, h3, Ordering.swap]
    · have h3 : b < a := by
        rcases lt_or_gt_of_ne h with hh | hh
        · exact absurd hh h2
        · exact hh
      simp [h, h', h2, h3, Ordering.swap]

theorem cmpBool_eq_iff : ∀ a b : Bool, cmpBool a b = Ordering.eq ↔ a = b := by
  decide

theorem cmpBool_swap : ∀ a b : Bool, cmpBool b a = (cmpBool a b).swap := by
  decide

theorem cmpBool_lt_trans : ∀ a b c : Bool, cmpBool a b = Ordering.lt →
    cmpBool b c = Ordering.lt → cmpBool a c = Ordering.lt := by
  decide

theorem cmpLex_eq_iff {α : Type} {cmp : α → α → Ordering}
    (hcmp : ∀ a b, cmp a b = Ordering.eq ↔ a = b) :
    ∀ (l1 l2 : List α), cmpLex cmp l1 l2 = Ordering.eq ↔ l1 = l2 := by
  intro l1
  induction l1 with
  | nil => intro l2; cases l2 <;> simp [cmpLex]
  | cons a as ih =>
    intro l2
    cases l2 with
    | nil => simp [cmpLex]
    | cons b bs =>
      simp only [cmpLex]
      cases hab : cmp a b with
      | eq =>
        have hab' := (hcmp a b).mp hab
        simp [hab', ih]
      | lt =>
        have hne : a ≠ b := fun hh => by
          rw [hh, (hcmp b b).mpr rfl] at hab
          cases hab
        simp [hne]
      | gt =>
        have hne : a ≠ b := fun hh => by
          rw [hh, (hcmp b b).mpr rfl] at hab
          cases hab
        simp [hne]

theorem cmpLex_swap {α : Type} {cmp : α → α → Ordering}
    (hswap : ∀ a b, cmp b a = (cmp a b).swap) :
    ∀ (l1 l2 : List α), cmpLex cmp l2 l1 = (cmpLex cmp l1 l2).swap := by
  intro l1
  induction l1 with
  | nil => intro l2; cases l2 <;> simp [cmpLex, Ordering.swap]
  | cons a as ih =>
    intro l2
    cases l2 with
    | nil => simp [cmpLex, Ordering.swap]
    | cons b bs =>
      simp only [cmpLex, hswap a b]
      cases hab : cmp a b <;> simp [Ordering.swap, ih]

theorem cmpLex_lt_trans {α : Type} {cmp : α → α → Ordering}
    (heq : ∀ a b, cmp a b = Ordering.eq ↔ a = b)
    (htr : ∀ a b c, cmp a b = Ordering.lt → cmp b c = Ordering.lt →
      cmp a c = Ordering.lt) :
    ∀ (l1 l2 l3 : List α), cmpLex cmp l1 l2 = Ordering.lt →
      cmpLex cmp l2 l3 = Ordering.lt → cmpLex cmp l1 l3 = Ordering.lt := by
  intro l1
  induction l1 with
  | nil =>
    intro l2 l3 h12 h23
    cases l2 with
    | nil => exact h23
    | cons b bs =>
      cases l3 with
      | nil => simp [cmpLex] at h23
      | cons cc cs => simp [cmpLex]
  | cons a as ih =>
    intro l2 l3 h12 h23
    cases l2 with
    | nil => simp [cmpLex] at h12
    | cons b bs =>
      cases l3 with
      | nil => simp [cmpLex] at h23
      | cons cc cs =>
        simp only [cmpLex] at h12 h23 ⊢
        cases hab : cmp a b with
        | gt => simp [hab] at h12
        | lt =>
          cases hbc : cmp b cc with
          | gt => simp [hbc] at h23
          | lt => simp [htr a b cc hab hbc]
          | eq =>
            have hbc' := (heq b cc).mp hbc
            rw [← hbc']
            simp [hab]
        | eq =>
          have hab' := (heq a b).mp hab
          subst hab'
          rw [hab] at h12
          cases hbc : cmp a cc with
          | gt => simp [hbc] at h23
          | lt => rfl
          | eq =>
            rw [hbc] at h23
            exact ih bs cs h12 h23

theorem lex3_swap : ∀ o1 o2 o3 : Ordering,
    lex3 o1.swap o2.swap o3.swap = (lex3 o1 o2 o3).swap := by
  intro o1 o2 o3
  cases o1 <;> cases o2 <;> cases o3 <;> rfl

theorem lex3_eq_iff : ∀ o1 o2 o3 : Ordering,
    lex3 o1 o2 o3 = Ordering.eq ↔
      (o1 = Ordering.eq ∧ o2 = Ordering.eq ∧ o3 = Ordering.eq) := by
  intro o1 o2 o3
  cases o1 <;> cases o2 <;> simp [lex3]

theorem lex3_lt_iff : ∀ o1 o2 o3 : Ordering,
    lex3 o1 o2 o3 = Ordering.lt ↔
      (o1 = Ordering.lt ∨ (o1 = Ordering.eq ∧ o2 = Ordering.lt) ∨
       (o1 = Ordering.eq ∧ o2 = Ordering.eq ∧ o3 = Ordering.lt)) := by
  intro o1 o2 o3
  cases o1 <;> cases o2 <;> simp [lex3]

theorem localeCompare_eq_iff {a b : String} :
    localeCompare a b = Ordering.eq ↔ a = b := by
  unfold localeCompare
  rw [lex3_eq_iff]
  constructor
  · intro h
    exact String.ext
      ((cmpLex_eq_iff (fun _ _ => cmpChar_eq_iff) _ _).mp h.2.2)
  · rintro rfl
    refine ⟨?_, ?_, ?_⟩
    · exact (cmpLex_eq_iff (fun _ _ => cmpChar_eq_iff) _ _).mpr rfl
    · exact (cmpLex_eq_iff cmpBool_eq_iff _ _).mpr rfl
    · exact (cmpLex_eq_iff (fun _ _ => cmpChar_eq_iff) _ _).mpr rfl

theorem localeCompare_swap (a b : String) :
    localeCompare b a = (localeCompare a b).swap := by
  unfold localeCompare
  rw [cmpLex_swap cmpChar_swap (a.data.map Char.toLower)
      (b.data.map Char.toLower),
    cmpLex_swap cmpBool_swap (a.data.map Char.isUpper)
      (b.data.map Char.isUpper),
    cmpLex_swap cmpChar_swap a.data b.data, lex3_swap]

theorem localeCompare_lt_trans {a b c : String}
    (h1 : localeCompare a b = Ordering.lt)
    (h2 : localeCompare b c = Ordering.lt) :
    localeCompare a c = Ordering.lt := by
  have hCeq : ∀ x y : Char, cmpChar x y = Ordering.eq ↔ x = y :=
    fun _ _ => cmpChar_eq_iff
  have hCtr : ∀ x y z : Char, cmpChar x y = Ordering.lt →
      cmpChar y z = Ordering.lt → cmpChar x z = Ordering.lt := by
    intro x y z hx hy
    exact cmpChar_lt_iff.mpr (lt_trans (cmpChar_lt_iff.mp hx)
      (cmpChar_lt_iff.mp hy))
  unfold localeCompare at h1 h2 ⊢
  rw [lex3_lt_iff] at h1 h2 ⊢
  rcases h1 with h1 | ⟨h1e, h1t⟩ | ⟨h1e, h1te, h1r⟩
  · rcases h2 with h2 | ⟨h2e, _⟩ | ⟨h2e, _, _⟩
    · exact Or.inl (cmpLex_lt_trans hCeq hCtr _ _ _ h1 h2)
    · have := (cmpLex_eq_iff hCeq _ _).mp h2e
      exact Or.inl (this ▸ h1)
    · have := (cmpLex_eq_iff hCeq _ _).mp h2e
      exact Or.inl (this ▸ h1)
  · have h1e' := (cmpLex_eq_iff hCeq _ _).mp h1e
    rcases h2 with h2 | ⟨h2e, h2t⟩ | ⟨h2e, h2te, _⟩
    · exact Or.inl (h1e' ▸ h2)
    · exact Or.inr (Or.inl ⟨by rw [h1e']; exact h2e,
        cmpLex_lt_trans cmpBool_eq_iff cmpBool_lt_trans _ _ _ h1t h2t⟩)
    · have h2te' := (cmpLex_eq_iff cmpBool_eq_iff _ _).mp h2te
      exact Or.inr (Or.inl ⟨by rw [h1e']; exact h2e, h2te' ▸ h1t⟩)
  · have h1e' := (cmpLex_eq_iff hCeq _ _).mp h1e
    have h1te' := (cmpLex_eq_iff cmpBool_eq_iff _ _).mp h1te
    rcases h2 with h2 | ⟨h2e, h2t⟩ | ⟨h2e, h2te, h2r⟩
    · exact Or.inl (h1e' ▸ h2)
    · exact Or.inr (Or.inl ⟨by rw [h1e']; exact h2e, h1te' ▸ h2t⟩)
    · refine Or.inr (Or.inr ⟨by rw [h1e']; exact h2e,
        by rw [h1te']; exact h2te,
        cmpLex_lt_trans hCeq hCtr _ _ _ h1r h2r⟩)

/-! ### The comparator order -/

theorem seasonCmp_antisymm (x y : String × Int) :
    seasonCmp y x = -seasonCmp x y := by
  unfold seasonCmp
  simp only []
  by_cases hd : y.2 - x.2 ≠ 0
  · rw [if_pos hd, if_pos (by omega)]
    omega
  · rw [if_neg hd, if_neg (by omega)]
    rw [localeCompare_swap y.1 x.1]
    cases localeCompare y.1 x.1 <;> simp [Ordering.swap]

theorem seasonLE_iff (x y : String × Int) : seasonLE x y ↔ localeTieLE x y := by
  unfold seasonLE seasonCmp localeTieLE
  simp only []
  by_cases hd : y.2 - x.2 ≠ 0
  · rw [if_pos hd]
    constructor
    · intro h
      exact Or.inl (by omega)
    · intro h
      rcases h with h | h
      · omega
      · omega
  · rw [if_neg hd]
    constructor
    · intro h
      refine Or.inr ⟨by omega, ?_⟩
      cases hc : localeCompare x.1 y.1 with
      | lt => simp
      | eq => simp
      | gt =>
        rw [hc] at h
        exact absurd (show (1 : Int) ≤ 0 from h) (by norm_num)
    · intro h
      rcases h with h | ⟨hp, hl⟩
      · omega
      · cases hc : localeCompare x.1 y.1 with
        | lt => exact (show ((-1 : Int) ≤ 0) by norm_num)
        | eq => exact (show ((0 : Int) ≤ 0) by norm_num)
        | gt => exact absurd hc hl

theorem seasonLE_total (x y : String × Int) : seasonLE x y ∨ seasonLE y x := by
  unfold seasonLE
  rw [seasonCmp_antisymm x y]
  omega

theorem seasonLE_trans (x y z : String × Int) (h1 : seasonLE x y)
    (h2 : seasonLE y z) : seasonLE x z := by
  rw [seasonLE_iff] at h1 h2 ⊢
  unfold localeTieLE at h1 h2 ⊢
  rcases h1 with h1 | ⟨h1p, h1l⟩
  · rcases h2 with h2 | ⟨h2p, _⟩
    · exact Or.inl (by omega)
    · exact Or.inl (by omega)
  · rcases h2 with h2 | ⟨h2p, h2l⟩
    · exact Or.inl (by omega)
    · refine Or.inr ⟨by omega, ?_⟩
      cases hl1 : localeCompare x.1 y.1 with
      | gt => exact absurd hl1 h1l
      | eq =>
        have : x.1 = y.1 := localeCompare_eq_iff.mp hl1
        rw [this]
        exact h2l
      | lt =>
        cases hl2 : localeCompare y.1 z.1 with
        | gt => exact absurd hl2 h2l
        | eq =>
          have : y.1 = z.1 := localeCompare_eq_iff.mp hl2
          rw [← this]
          simp [hl1]
        | lt =>
          simp [localeCompare_lt_trans hl1 hl2]

theorem seasonLE_antisymm (x y : String × Int) (h1 : seasonLE x y)
    (h2 : seasonLE y x) : x = y := by
  rw [seasonLE_iff] at h1 h2
  unfold localeTieLE at h1 h2
  have hp : x.2 = y.2 := by
    rcases h1 with h1 | ⟨h1p, _⟩ <;> rcases h2 with h2 | ⟨h2p, _⟩ <;> omega
  have hx : localeCompare x.1 y.1 ≠ Ordering.gt := by
    rcases h1 with h1 | ⟨_, h1l⟩
    · omega
    · exact h1l
  have hy : localeCompare y.1 x.1 ≠ Ordering.gt := by
    rcases h2 with h2 | ⟨_, h2l⟩
    · omega
    · exact h2l
  rw [localeCompare_swap] at hy
  have hn : x.1 = y.1 := by
    cases hl : localeCompare x.1 y.1 with
    | gt => exact absurd hl hx
    | eq => exact localeCompare_eq_iff.mp hl
    | lt => rw [hl] at hy; exact absurd rfl hy
  exact Prod.ext hn hp

/-! ### Claim C6: standings order -/

/-- C6 as stated is false: ties are broken by `localeCompare`, not by
code-point order.  At equal points, the name `"a"` sorts before `"B"`
(case-insensitive primary level), while ascending code-point order would
put `"B"` (U+0042) before `"a"` (U+0061): the sorted output's adjacent
tied entries are not in ascending code-point order. -/
theorem standings_tiebreak_not_codepoint :
    rankByPoints [("a", (0 : Int)), ("B", 0)] = [("a", 0), ("B", 0)] ∧
    ¬ codePointTieLE ("a", (0 : Int)) ("B", 0) ∧
    cmpLex cmpChar "B".data "a".data = Ordering.lt := by
  refine ⟨by decide, by decide, by decide⟩

/-- C6 (amended): for every points mapping, the derived standings are a
permutation of the entries sorted descending by points with ties broken
by ascending `localeCompare` order of the names (case-insensitive
primary, lowercase-first tertiary for ASCII; this coincides with
code-point order for same-case names); when the names are distinct the
order is strict, leaving no tie unresolved. -/
theorem standings_sorted_desc_locale_tiebreak (pts : Points) :
    (rankByPoints pts).Perm pts ∧
    (rankByPoints pts).Pairwise localeTieLE ∧
    ((pts.map Prod.fst).Nodup → (rankByPoints pts).Pairwise localeTieLT) := by
  have hperm : (rankByPoints pts).Perm pts := List.perm_insertionSort _ _
  haveI : IsTotal (String × Int) seasonLE := ⟨seasonLE_total⟩
  haveI : IsTrans (String × Int) seasonLE := ⟨seasonLE_trans⟩
  have hsorted : (rankByPoints pts).Pairwise seasonLE :=
    List.sorted_insertionSort seasonLE pts
  have hle : (rankByPoints pts).Pairwise localeTieLE :=
    hsorted.imp (fun h => (seasonLE_iff _ _).mp h)
  refine ⟨hperm, hle, ?_⟩
  intro hnd
  have hnd' : ((rankByPoints pts).map Prod.fst).Nodup :=
    ((hperm.map Prod.fst).symm).nodup hnd
  have hpw : (rankByPoints pts).Pairwise fun x y => x.1 ≠ y.1 :=
    List.pairwise_map.mp hnd'
  refine (hle.and hpw).imp ?_
  rintro x y ⟨hxy, hne⟩
  unfold localeTieLE at hxy
  unfold localeTieLT
  rcases hxy with hxy | ⟨hp, hl⟩
  · exact Or.inl hxy
  · refine Or.inr ⟨hp, ?_⟩
    cases hc : localeCompare x.1 y.1 with
    | lt => rfl
    | eq => exact absurd (localeCompare_eq_iff.mp hc) hne
    | gt => exact absurd hc hl

theorem standings_sorted_desc_locale_tiebreak_witness :
    (rankByPoints [("b", (2 : Int)), ("B", 2), ("a", 5)]).Perm
      [("b", 2), ("B", 2), ("a", 5)] ∧
    (rankByPoints [("b", (2 : Int)), ("B", 2), ("a", 5)]).Pairwise
      localeTieLE ∧
    (([("b", (2 : Int)), ("B", 2), ("a", 5)].map Prod.fst).Nodup →
      (rankByPoints [("b", (2 : Int)), ("B", 2), ("a", 5)]).Pairwise
        localeTieLT) :=
  standings_sorted_desc_locale_tiebreak [("b", 2), ("B", 2), ("a", 5)]

/-! ### Claim C7: bracket formation -/

theorem sliceLoop_spec (k : Nat) :
    ∀ (rest : List String) (i : Nat) (bs : List (List String)),
      bs.length = k →
      (sliceLoop k rest i bs).length = k ∧
      ∀ b, b < k → (sliceLoop k rest i bs).getD b []
        = bs.getD b [] ++
          ((rest.enumFrom i).filter fun p => p.1 % k = b).map Prod.snd := by
  intro rest
  induction rest with
  | nil =>
    intro i bs hbs
    refine ⟨hbs, ?_⟩
    intro b hb
    simp [sliceLoop]
  | cons q rest ih =>
    intro i bs hbs
    set bs' := bs.set (i % k) (bs.getD (i % k) [] ++ [q]) with hbs'
    have hbs'len : bs'.length = k := by rw [hbs', List.length_set, hbs]
    have hstep : sliceLoop k (q :: rest) i bs = sliceLoop k rest (i + 1) bs' :=
      rfl
    obtain ⟨hlen, hget⟩ := ih (i + 1) bs' hbs'len
    refine ⟨hstep ▸ hlen, ?_⟩
    intro b hb
    rw [hstep, hget b hb, List.enumFrom_cons]
    by_cases hbi : i % k = b
    · rw [List.filter_cons_of_pos (by simp [hbi])]
      have hq : bs'.getD b [] = bs.getD b [] ++ [q] := by
        rw [hbs', ← hbi,
          List.getD_eq_getElem _ _ (by rw [List.length_set, hbs]; exact hbi ▸ hb),
          List.getElem_set_self]
      rw [hq]
      simp
    · rw [List.filter_cons_of_neg (by simp [hbi])]
      have hq : bs'.getD b [] = bs.getD b [] := by
        have hblt : b < bs.length := by omega
        rw [hbs',
          List.getD_eq_getElem _ _ (by rw [List.length_set]; exact hblt),
          List.getElem_set_ne hbi, List.getD_eq_getElem _ _ hblt]
      rw [hq]

theorem range_filter_eq_single : ∀ (n b : Nat), b < n →
    (List.range n).filter (fun x => x = b) = [b] := by
  intro n
  induction n with
  | zero => intro b hb; omega
  | succ n ihn =>
    intro b hb
    rw [List.range_succ, List.filter_append]
    by_cases hbn : b = n
    · subst hbn
      have h0 : (List.range b).filter (fun x => x = b) = [] := by
        rw [List.filter_eq_nil_iff]
        intro a ha
        have := List.mem_range.mp ha
        simp
        omega
      rw [h0]
      simp
    · have hb' : b < n := by omega
      rw [ihn b hb']
      have h1 : ([n].filter fun x => x = b) = [] := by
        simp
        exact fun hh => hbn hh.symm
      rw [h1]
      simp

theorem range_mod_filter_length (k : Nat) (hk : 0 < k) {b : Nat} (hb : b < k) :
    ∀ m, ((List.range (k * m)).filter fun j => j % k = b).length = m := by
  intro m
  induction m with
  | zero => simp
  | succ n ihn =>
    rw [Nat.mul_succ, List.range_add, List.filter_append, List.length_append,
      ihn, List.filter_map]
    have hcong : ∀ x ∈ List.range k,
        ((fun j => decide (j % k = b)) ∘ (fun x => k * n + x)) x
          = decide (x = b) := by
      intro x hx
      have hxk : x < k := List.mem_range.mp hx
      simp only [Function.comp]
      rw [Nat.mul_add_mod, Nat.mod_eq_of_lt hxk]
    rw [List.filter_congr hcong, range_filter_eq_single k b hb]
    simp

/-- Helper form of the round-robin characterization. -/
theorem slice_spec (queens : List String) (k : Nat)
    (hk : 0 < k) :
    (sliceIntoBrackets queens k).length = k ∧
    (∀ b, b < k → (sliceIntoBrackets queens k).getD b []
      = (queens.enum.filter fun p => p.1 % k = b).map Prod.snd) ∧
    (∀ m, queens.length = k * m → ∀ b, b < k →
      ((sliceIntoBrackets queens k).getD b []).length = m) := by
  obtain ⟨hlen, hget⟩ := sliceLoop_spec k queens 0 (List.replicate k [])
    (by simp)
  have hmain : ∀ b, b < k → (sliceIntoBrackets queens k).getD b []
      = (queens.enum.filter fun p => p.1 % k = b).map Prod.snd := by
    intro b hb
    unfold sliceIntoBrackets
    rw [hget b hb,
      List.getD_eq_getElem _ _ (by rw [List.length_replicate]; exact hb),
      List.getElem_replicate]
    rfl
  refine ⟨hlen, hmain, ?_⟩
  intro m hm b hb
  rw [hmain b hb, List.length_map]
  have h1 : List.filter ((fun j => decide (j % k = b)) ∘ Prod.fst) queens.enum
      = List.filter (fun p => decide (p.1 % k = b)) queens.enum := by
    apply List.filter_congr
    intro x _
    rfl
  have h2 := List.filter_map (p := fun j => decide (j % k = b))
    (Prod.fst (α := Nat) (β := String)) queens.enum
  rw [List.enum_map_fst, h1] at h2
  have h3 : ((List.range queens.length).filter
      fun j => decide (j % k = b)).length
      = (List.filter (fun p => decide (p.1 % k = b)) queens.enum).length := by
    rw [h2, List.length_map]
  rw [← h3, hm]
  exact range_mod_filter_length k hk hb m

/-- C7: round-robin bracket formation — there are `bracketCount`
brackets, bracket `b` (0-based; reported as `b + 1`) consists exactly of
the competitors whose input index `i` satisfies `i % bracketCount = b`,
kept in input order; and when the input length is
`bracketCount × bracketSize`, every bracket has exactly `bracketSize`
members. -/
theorem sliceIntoBrackets_round_robin (queens : List String) (k : Nat)
    (hk : 0 < k) :
    (sliceIntoBrackets queens k).length = k ∧
    (∀ b, b < k → (sliceIntoBrackets queens k).getD b []
      = (queens.enum.filter fun p => p.1 % k = b).map Prod.snd) ∧
    (∀ m, queens.length = k * m → ∀ b, b < k →
      ((sliceIntoBrackets queens k).getD b []).length = m) :=
  slice_spec queens k hk

theorem sliceIntoBrackets_round_robin_witness :
    (sliceIntoBrackets names18 3).length = 3 ∧
    (∀ b, b < 3 → (sliceIntoBrackets names18 3).getD b []
      = (names18.enum.filter fun p => p.1 % 3 = b).map Prod.snd) ∧
    (∀ m, names18.length = 3 * m → ∀ b, b < 3 →
      ((sliceIntoBrackets names18 3).getD b []).length = m) :=
  sliceIntoBrackets_round_robin names18 3 (by decide)

/-! ### Claim C4: configuration validation -/

/-- C4: when the (normalized) competitor count differs from the
defaulted `bracketCount * bracketSize`, the simulation returns the
configuration error naming both the expected and the actual count; the
error is the same for every draw stream, redraw bound and clock reading
(it is raised before any RNG draw is consumed or any simulation output
produced), and for a matching count no configuration error is raised. -/
theorem configuration_mismatch_check (queens : List String) (s : Rng)
    (bco bso fuel : Nat) (now : String) :
    (queens.length ≠
        (if bco = 0 then 3 else bco) * (if bso = 0 then 6 else bso) →
      simulateAllStars10 queens s bco bso fuel now = Except.error
        ("AllStars10 expects exactly "
          ++ toString ((if bco = 0 then 3 else bco)
              * (if bso = 0 then 6 else bso))
          ++ " queens by default (currently got "
          ++ toString queens.length ++ ").")) ∧
    (queens.length =
        (if bco = 0 then 3 else bco) * (if bso = 0 then 6 else bso) →
      ∀ e, simulateAllStars10 queens s bco bso fuel now ≠ Except.error e) := by
  constructor
  · intro hne
    unfold simulateAllStars10 simulateSeason
    simp only []
    rw [if_pos hne]
    rfl
  · intro heq e
    unfold simulateAllStars10 simulateSeason
    simp only []
    rw [if_neg (by simp [heq])]
    cases hr : runBrackets s fuel (sliceIntoBrackets queens
        (if bco = 0 then 3 else bco)) 0 [] [] 0 with
    | none => exact fun hcon => Except.noConfusion hcon
    | some p =>
      obtain ⟨brs, eps, c1⟩ := p
      exact fun hcon => Except.noConfusion hcon

theorem configuration_mismatch_check_witness :
    simulateAllStars10 names17 rngA 0 0 20 "T1" = Except.error
      "AllStars10 expects exactly 18 queens by default (currently got 17)." ∧
    ∀ e, simulateAllStars10 names18 rngA 0 0 20 "T1" ≠ Except.error e :=
  ⟨(configuration_mismatch_check names17 rngA 0 0 20 "T1").1 (by decide),
   fun e => (configuration_mismatch_check names18 rngA 0 0 20 "T1").2
     (by decide) e⟩

/-! ### Claim C1: determinism under a fixed recorded draw stream -/

/-- C1 as stated is false: `meta.generatedAt` records the wall clock
(`new Date().toISOString()`), so two runs at different instants differ
in that field even with identical input and identical recorded draws. -/
theorem season_metadata_timestamp_counterexample :
    RngContract rngA ∧
    simulateAllStars10 names18 rngA 0 0 20 "2025-01-01T00:00:00.000Z"
      ≠ simulateAllStars10 names18 rngA 0 0 20 "2025-01-01T00:00:00.001Z" :=
  ⟨rngA_contract, by decide⟩

/-- C1 (amended): with identical input and an identical recorded draw
sequence, two runs agree on every field of the result except
`meta.generatedAt`, which equals each run's own clock reading; in
particular the results are byte-identical after fixing that one field. -/
theorem season_identical_up_to_timestamp (queens : List String) (s : Rng)
    (bco bso fuel : Nat) (now now' : String) :
    (simulateAllStars10 queens s bco bso fuel now).map (Option.map stripTime)
      = (simulateAllStars10 queens s bco bso fuel now').map
          (Option.map stripTime) ∧
    (∀ r r', simulateAllStars10 queens s bco bso fuel now = Except.ok (some r) →
      simulateAllStars10 queens s bco bso fuel now' = Except.ok (some r') →
      r.meta.generatedAt = now ∧ r'.meta.generatedAt = now' ∧
      r.meta.format = r'.meta.format ∧
      r.brackets = r'.brackets ∧ r.episodes = r'.episodes ∧
      r.top9 = r'.top9 ∧ r.semiEliminations = r'.semiEliminations ∧
      r.finalists = r'.finalists ∧ r.finaleRounds = r'.finaleRounds ∧
      r.champion = r'.champion) := by
  unfold simulateAllStars10
  cases h0 : simulateSeason queens s bco bso fuel with
  | error e =>
    refine ⟨rfl, ?_⟩
    intro r r' h1 _
    exact absurd h1 (fun hcon => Except.noConfusion hcon)
  | ok ob =>
    cases ob with
    | none =>
      refine ⟨rfl, ?_⟩
      intro r r' h1 _
      simp only [Except.map, Option.map] at h1
      exact absurd h1 (by simp)
    | some b =>
      refine ⟨rfl, ?_⟩
      intro r r' h1 h2
      simp only [Except.map, Option.map, Except.ok.injEq,
        Option.some.injEq] at h1 h2
      rw [← h1, ← h2]
      exact ⟨rfl, rfl, rfl, rfl, rfl, rfl, rfl, rfl, rfl, rfl⟩

theorem season_identical_up_to_timestamp_witness :
    ((simulateAllStars10 names18 rngA 0 0 20 "T1").map
        (Option.map stripTime)
      = (simulateAllStars10 names18 rngA 0 0 20 "T2").map
          (Option.map stripTime)) ∧
    (seasonT1.meta.generatedAt = "T1" ∧ seasonT2.meta.generatedAt = "T2" ∧
      seasonT1.meta.format = seasonT2.meta.format ∧
      seasonT1.brackets = seasonT2.brackets ∧
      seasonT1.episodes = seasonT2.episodes ∧
      seasonT1.top9 = seasonT2.top9 ∧
      seasonT1.semiEliminations = seasonT2.semiEliminations ∧
      seasonT1.finalists = seasonT2.finalists ∧
      seasonT1.finaleRounds = seasonT2.finaleRounds ∧
      seasonT1.champion = seasonT2.champion) :=
  ⟨(season_identical_up_to_timestamp names18 rngA 0 0 20 "T1" "T2").1,
   (season_identical_up_to_timestamp names18 rngA 0 0 20 "T1" "T2").2
     seasonT1 seasonT2 (by decide) (by decide)⟩

/-! ### Season-level helper lemmas: brackets -/

theorem slice_mem_facts {queens : List String} (hnd : queens.Nodup)
    {k m : Nat} (hk : 0 < k) (hm : queens.length = k * m) :
    ∀ bq ∈ sliceIntoBrackets queens k,
      bq.Nodup ∧ bq.length = m ∧ ∀ x ∈ bq, x ∈ queens := by
  intro bq hbq
  obtain ⟨b, hb, hbe⟩ := List.mem_iff_getElem.mp hbq
  have hbk : b < k := by
    have := (slice_spec queens k hk).1
    omega
  have hgd : (sliceIntoBrackets queens k).getD b [] = bq := by
    rw [List.getD_eq_getElem _ _ hb]
    exact hbe
  have hchar := (slice_spec queens k hk).2.1 b hbk
  rw [hgd] at hchar
  have hsub : bq.Sublist queens := by
    rw [hchar]
    have h1 : ((queens.enum.filter fun p => p.1 % k = b).map
        Prod.snd).Sublist (queens.enum.map Prod.snd) :=
      (List.filter_sublist _).map _
    rw [List.enum_map_snd] at h1
    exact h1
  have hlenm := (slice_spec queens k hk).2.2 m hm b hbk
  rw [hgd] at hlenm
  exact ⟨hsub.nodup hnd, hlenm, fun x hx => hsub.subset hx⟩

theorem slice_mem_bracket_iff {queens : List String} {k : Nat} (hk : 0 < k)
    {b : Nat} (hb : b < k) {x : String} :
    x ∈ (sliceIntoBrackets queens k).getD b [] ↔
      ∃ i, ∃ h : i < queens.length, i % k = b ∧ queens[i] = x := by
  rw [(slice_spec queens k hk).2.1 b hb]
  simp only [List.mem_map, List.mem_filter]
  constructor
  · rintro ⟨⟨i, y⟩, ⟨hmem, hpred⟩, hsnd⟩
    have hsome := List.mem_enum_iff_getElem?.mp hmem
    rw [List.getElem?_eq_some_iff] at hsome
    obtain ⟨hi, hval⟩ := hsome
    refine ⟨i, hi, by simpa using hpred, ?_⟩
    simp only at hsnd
    rw [hval, hsnd]
  · rintro ⟨i, hi, hmod, hval⟩
    refine ⟨(i, x), ⟨?_, by simpa using hmod⟩, rfl⟩
    rw [List.mem_enum_iff_getElem?, List.getElem?_eq_some_iff]
    exact ⟨hi, hval⟩

theorem slice_pairwise_disjoint {queens : List String} (hnd : queens.Nodup)
    {k : Nat} (hk : 0 < k) :
    List.Pairwise (fun x y => ∀ a, a ∈ x → a ∈ y → False)
      (sliceIntoBrackets queens k) := by
  rw [List.pairwise_iff_getElem]
  intro i j hi hj hij a hai haj
  have hlen : (sliceIntoBrackets queens k).length = k :=
    (slice_spec queens k hk).1
  have hik : i < k := by omega
  have hjk : j < k := by omega
  have h1 : a ∈ (sliceIntoBrackets queens k).getD i [] := by
    rw [List.getD_eq_getElem _ _ hi]
    exact hai
  have h2 : a ∈ (sliceIntoBrackets queens k).getD j [] := by
    rw [List.getD_eq_getElem _ _ hj]
    exact haj
  obtain ⟨ia, hia, hmoda, hva⟩ := (slice_mem_bracket_iff hk hik).mp h1
  obtain ⟨ja, hja, hmodj, hvj⟩ := (slice_mem_bracket_iff hk hjk).mp h2
  have heq : ia = ja := (hnd.getElem_inj_iff).mp (hva.trans hvj.symm)
  rw [heq] at hmoda
  omega

/-! ### Season-level helper lemmas: semifinal -/

theorem eraseIdx_eq_filter_of_nodup :
    ∀ (l : List String), l.Nodup → ∀ (i : Nat) (h : i < l.length),
      l.eraseIdx i = l.filter fun x => x ≠ l[i] := by
  intro l
  induction l with
  | nil => intro _ i h; simp at h
  | cons a t ih =>
    intro hnd i h
    simp only [List.nodup_cons] at hnd
    cases i with
    | zero =>
      simp only [List.eraseIdx_cons_zero, List.getElem_cons_zero]
      rw [List.filter_cons_of_neg (by simp)]
      rw [List.filter_eq_self.mpr ?_]
      intro x hx
      simp only [decide_eq_true_eq]
      exact fun hh => hnd.1 (hh ▸ hx)
    | succ i =>
      simp only [List.eraseIdx_cons_succ, List.getElem_cons_succ]
      have hit : i < t.length := by simpa using h
      have hne : a ≠ t[i] := fun hh => hnd.1 (hh ▸ List.getElem_mem hit)
      rw [List.filter_cons_of_pos (by simpa using hne), ih hnd.2 i hit]

theorem semiLoop_two_spec {s : Rng} (hs : RngContract s) {pool : List String}
    (hnd : pool.Nodup) (h9 : pool.length = 9) (c : Nat) :
    ∃ e1 e2 : String,
      (semiLoop s 2 pool [] c).2.1 = [e1, e2] ∧ e1 ≠ e2 ∧
      e1 ∈ pool ∧ e2 ∈ pool ∧
      (semiLoop s 2 pool [] c).1
        = pool.filter (fun q => ¬ (([e1, e2] : List String).contains q)) ∧
      (semiLoop s 2 pool [] c).1.length = 7 := by
  have hi1 : floorMul (s c) pool.length < pool.length :=
    floorMul_lt (hs c) (by omega)
  set i1 := floorMul (s c) pool.length with hi1d
  set e1 := pool.getD i1 "" with he1
  set pool1 := pool.eraseIdx i1 with hp1
  have he1g : e1 = pool[i1] := by
    rw [he1, List.getD_eq_getElem _ _ hi1]
  have he1m : e1 ∈ pool := he1g ▸ List.getElem_mem hi1
  have hp1f : pool1 = pool.filter fun x => x ≠ e1 := by
    rw [hp1, eraseIdx_eq_filter_of_nodup pool hnd i1 hi1, ← he1g]
  have hp1len : pool1.length = 8 := by
    rw [hp1, List.length_eraseIdx, if_pos hi1, h9]
  have hp1nd : pool1.Nodup := (hp1 ▸ List.eraseIdx_sublist pool i1).nodup hnd
  have hi2 : floorMul (s (c + 1)) pool1.length < pool1.length :=
    floorMul_lt (hs (c + 1)) (by omega)
  set i2 := floorMul (s (c + 1)) pool1.length with hi2d
  set e2 := pool1.getD i2 "" with he2
  have he2g : e2 = pool1[i2] := by
    rw [he2, List.getD_eq_getElem _ _ hi2]
  have he2m1 : e2 ∈ pool1 := he2g ▸ List.getElem_mem hi2
  have he2m : e2 ∈ pool := by
    rw [hp1f] at he2m1
    exact List.mem_of_mem_filter he2m1
  have he2ne : e2 ≠ e1 := by
    rw [hp1f] at he2m1
    have := List.of_mem_filter he2m1
    simpa using this
  have hfinal : (semiLoop s 2 pool [] c).1 = pool1.eraseIdx i2 := rfl
  have helims : (semiLoop s 2 pool [] c).2.1 = [e1, e2] := rfl
  refine ⟨e1, e2, helims, fun hh => he2ne hh.symm, he1m, he2m, ?_, ?_⟩
  · rw [hfinal, eraseIdx_eq_filter_of_nodup pool1 hp1nd i2 hi2, ← he2g,
      hp1f, List.filter_filter]
    apply List.filter_congr
    intro x _
    by_cases hx1 : x = e1 <;> by_cases hx2 : x = e2 <;> simp [hx1, hx2]
  · rw [hfinal, List.length_eraseIdx, if_pos hi2, hp1len]

/-! ### Season-level helper lemmas: shuffle and finale -/

theorem swapL_facts {l : List String} {i j : Nat} (hi : i < l.length)
    (hj : j < l.length) :
    (swapL l i j).length = l.length ∧ ∀ x ∈ swapL l i j, x ∈ l := by
  constructor
  · unfold swapL
    rw [List.length_set, List.length_set]
  · intro x hx
    unfold swapL at hx
    rcases List.mem_or_eq_of_mem_set hx with hx | hx
    · rcases List.mem_or_eq_of_mem_set hx with hx | hx
      · exact hx
      · rw [hx, List.getD_eq_getElem _ _ hj]
        exact List.getElem_mem hj
    · rw [hx, List.getD_eq_getElem _ _ hi]
      exact List.getElem_mem hi

theorem shuffleLoop_spec {s : Rng} (hs : RngContract s) :
    ∀ (i : Nat) (l : List String) (c : Nat), i < l.length →
      (shuffleLoop s l c i).1.length = l.length ∧
      ∀ x ∈ (shuffleLoop s l c i).1, x ∈ l := by
  intro i
  induction i with
  | zero => exact fun l c _ => ⟨rfl, fun x hx => hx⟩
  | succ i ih =>
    intro l c hi
    have hj : floorMul (s c) (i + 2) < i + 2 := floorMul_lt (hs c) (by omega)
    have hjl : floorMul (s c) (i + 2) < l.length := by omega
    have hsw := swapL_facts (l := l) (i := i + 1)
      (j := floorMul (s c) (i + 2)) hi hjl
    have hlen : i < (swapL l (i + 1) (floorMul (s c) (i + 2))).length := by
      rw [hsw.1]
      omega
    obtain ⟨ih1, ih2⟩ := ih (swapL l (i + 1) (floorMul (s c) (i + 2)))
      (c + 1) hlen
    exact ⟨ih1.trans hsw.1, fun x hx => hsw.2 x (ih2 x hx)⟩

theorem shuffle_spec {s : Rng} (hs : RngContract s) {l : List String}
    (c : Nat) (hl : 0 < l.length) :
    (shuffle l s c).1.length = l.length ∧
    ∀ x ∈ (shuffle l s c).1, x ∈ l := by
  unfold shuffle
  obtain ⟨n, hn⟩ : ∃ n, l.length - 1 = n := ⟨l.length - 1, rfl⟩
  rw [hn]
  cases n with
  | zero => exact ⟨rfl, fun x hx => hx⟩
  | succ n => exact shuffleLoop_spec hs (n + 1) l c (by omega)

theorem runRound_spec (s : Rng) : ∀ (l : List String) (c : Nat),
    roundParticipants (runRound s l c).2.1 = l.length ∧
    byeCount (runRound s l c).2.1 = l.length % 2 ∧
    ∀ x ∈ (runRound s l c).1, x ∈ l := by
  have key : ∀ (n : Nat) (m : List String) (cc : Nat), m.length ≤ n →
      roundParticipants (runRound s m cc).2.1 = m.length ∧
      byeCount (runRound s m cc).2.1 = m.length % 2 ∧
      ∀ x ∈ (runRound s m cc).1, x ∈ m := by
    intro n
    induction n with
    | zero =>
      intro m cc hm
      cases m with
      | nil => exact ⟨rfl, rfl, fun x hx => hx⟩
      | cons x t => exact absurd hm (by simp)
    | succ n ih =>
      intro m cc hm
      cases m with
      | nil => exact ⟨rfl, rfl, fun x hx => hx⟩
      | cons x t =>
        cases t with
        | nil => refine ⟨rfl, rfl, fun y hy => hy⟩
        | cons y rest =>
          obtain ⟨ihp, ihb, ihm⟩ := ih rest (cc + 1)
            (by simp only [List.length_cons] at hm; omega)
          simp only [runRound]
          refine ⟨?_, ?_, ?_⟩
          · simp only [roundParticipants, List.map_cons, List.sum_cons] at ihp ⊢
            rw [ihp]
            simp only [List.length_cons]
            norm_num
            omega
          · simp only [byeCount, List.filter_cons] at ihb ⊢
            rw [if_neg (by simp)]
            rw [ihb]
            simp only [List.length_cons]
            omega
          · intro z hz
            simp only [List.mem_cons] at hz ⊢
            rcases hz with hz | hz
            · by_cases hc : lessHalf (s cc) = true
              · rw [hc] at hz
                simp at hz
                exact Or.inl hz
              · rw [Bool.not_eq_true] at hc
                rw [hc] at hz
                simp at hz
                exact Or.inr (Or.inl hz)
            · exact Or.inr (Or.inr (ihm z hz))
  exact fun l c => key l.length l c le_rfl

theorem finale_seven_spec {s : Rng} {l : List String} {c : Nat}
    (h7 : l.length = 7) :
    (finaleLoop s l c).1.map roundParticipants = [7, 4, 2] ∧
    (finaleLoop s l c).1.map byeCount = [1, 0, 0] ∧
    (finaleLoop s l c).2.1.length = 1 ∧
    ∀ x ∈ (finaleLoop s l c).2.1, x ∈ l := by
  set l1 := (runRound s l c).1 with hl1
  set c1 := (runRound s l c).2.2 with hc1
  have h4 : l1.length = 4 := by rw [hl1, runRound_length]; omega
  set l2 := (runRound s l1 c1).1 with hl2
  set c2 := (runRound s l1 c1).2.2 with hc2
  have h2 : l2.length = 2 := by rw [hl2, runRound_length]; omega
  set l3 := (runRound s l2 c2).1 with hl3
  set c3 := (runRound s l2 c2).2.2 with hc3
  have h1 : l3.length = 1 := by rw [hl3, runRound_length]; omega
  have e0 := finaleLoop_eq s l c
  rw [if_pos (by omega)] at e0
  have e1 := finaleLoop_eq s l1 c1
  rw [if_pos (by omega)] at e1
  have e2 := finaleLoop_eq s l2 c2
  rw [if_pos (by omega)] at e2
  have e3 := finaleLoop_eq s l3 c3
  rw [if_neg (by omega)] at e3
  rw [← hl1, ← hc1] at e0
  rw [← hl2, ← hc2] at e1
  rw [← hl3, ← hc3] at e2
  rw [e0, e1, e2, e3]
  obtain ⟨p0, b0, m0⟩ := runRound_spec s l c
  obtain ⟨p1, b1, m1⟩ := runRound_spec s l1 c1
  obtain ⟨p2, b2, m2⟩ := runRound_spec s l2 c2
  refine ⟨?_, ?_, h1, ?_⟩
  · simp only [List.map_cons, List.map_nil]
    rw [p0, p1, p2, h7, h4, h2]
  · simp only [List.map_cons, List.map_nil]
    rw [b0, b1, b2, h7, h4, h2]
  · intro x hx
    simp only at hx
    exact m0 x (m1 x (m2 x hx))

/-! ### Season-level helper lemmas: brackets stage and Top-9 pool -/

theorem foldl_addPt_keys :
    ∀ (entries : List (String × Int)) (pts : Points),
      ((entries.foldl (fun bp p => addPt bp p.1 p.2) pts).map Prod.fst)
        = pts.map Prod.fst := by
  intro entries
  induction entries with
  | nil => intro pts; rfl
  | cons e t ih =>
    intro pts
    rw [List.foldl_cons, ih, addPt_keys]

theorem runEpisodes_spec {bq : List String} {s : Rng} {fuel bIdx0 : Nat} :
    ∀ (count ep : Nat) (pts : Points) (recs : List EpisodeRecord) (c : Nat)
      {pts' : Points} {recs' : List EpisodeRecord} {c' : Nat},
      pts.map Prod.fst = bq →
      runEpisodes bIdx0 bq s fuel count ep pts recs c
        = some (pts', recs', c') →
      pts'.map Prod.fst = bq ∧ recs'.length = recs.length + count := by
  intro count
  induction count with
  | zero =>
    intro ep pts recs c pts' recs' c' hk h
    simp only [runEpisodes, Option.some.injEq, Prod.mk.injEq] at h
    obtain ⟨h1, h2, _⟩ := h
    exact ⟨h1 ▸ hk, by rw [← h2]; omega⟩
  | succ n ih =>
    intro ep pts recs c pts' recs' c' hk h
    rw [runEpisodes] at h
    split at h
    · exact absurd h (by simp)
    · next er c2 heq =>
      simp only [] at h
      have hk' : ((er.points.foldl (fun bp p => addPt bp p.1 p.2) pts).map
          Prod.fst) = bq := by rw [foldl_addPt_keys]; exact hk
      obtain ⟨hkeys, hlen⟩ := ih (ep + 1) _ _ c2 hk' h
      refine ⟨hkeys, ?_⟩
      rw [hlen, List.length_append]
      simp only [List.length_cons, List.length_nil]
      omega

theorem runBrackets_spec {s : Rng} {fuel : Nat} :
    ∀ (bl : List (List String)) (idx : Nat) (acc : List BracketResult)
      (accE : List EpisodeRecord) (c : Nat) {brs : List BracketResult}
      {eps : List EpisodeRecord} {c' : Nat},
      runBrackets s fuel bl idx acc accE c = some (brs, eps, c') →
      ∃ extra : List BracketResult, brs = acc ++ extra ∧
        List.Forall₂ (fun (br : BracketResult) (bq : List String) =>
          br.queens = bq ∧ br.episodes.length = 3 ∧
          (br.standings.map Prod.fst).Perm bq) extra bl := by
  intro bl
  induction bl with
  | nil =>
    intro idx acc accE c brs eps c' h
    simp only [runBrackets, Option.some.injEq, Prod.mk.injEq] at h
    exact ⟨[], by rw [← h.1]; simp, List.Forall₂.nil⟩
  | cons bq rest ih =>
    intro idx acc accE c brs eps c' h
    rw [runBrackets] at h
    split at h
    · exact absurd h (by simp)
    · next bp bed c2 heq =>
      simp only [] at h
      obtain ⟨hkeys, hlen3⟩ :=
        runEpisodes_spec 3 1 (bq.map fun q => (q, 0)) [] c (keys_init bq) heq
      set REC : BracketResult :=
        { bracketIndex := idx + 1
          queens := bq
          points := bp
          standings := rankByPoints bp
          episodes := bed } with hREC
      obtain ⟨extra, hbrs, hf⟩ := ih (idx + 1) _ _ c2 h
      refine ⟨REC :: extra, ?_, ?_⟩
      · rw [hbrs, List.append_assoc]
        rfl
      · refine List.Forall₂.cons ⟨by rw [hREC], ?_, ?_⟩ hf
        · rw [hREC]
          simpa using hlen3
        · rw [hREC]
          have hp : (rankByPoints bp).Perm bp := List.perm_insertionSort _ _
          have hmap := hp.map Prod.fst
          rw [hkeys] at hmap
          exact hmap

theorem foldl_append_map {β : Type} (f : β → List String) :
    ∀ (l : List β) (acc : List String),
      l.foldl (fun a b => a ++ f b) acc = acc ++ (l.map f).flatten := by
  intro l
  induction l with
  | nil => intro acc; simp
  | cons b t ih =>
    intro acc
    rw [List.foldl_cons, ih, List.map_cons, List.flatten_cons,
      List.append_assoc]

theorem forall₂_flatten_mem :
    ∀ {brs : List BracketResult} {bl : List (List String)},
      List.Forall₂ (fun (br : BracketResult) (bq : List String) =>
        br.queens = bq ∧ br.episodes.length = 3 ∧
        (br.standings.map Prod.fst).Perm bq) brs bl →
      ∀ a ∈ (brs.map fun br => (br.standings.take 3).map Prod.fst).flatten,
        ∃ bq ∈ bl, a ∈ bq := by
  intro brs bl hf
  induction hf with
  | nil => simp
  | @cons br bq brs' bl' hpair htail ih =>
    intro a ha
    rw [List.map_cons, List.flatten_cons, List.mem_append] at ha
    rcases ha with ha | ha
    · refine ⟨bq, List.mem_cons_self _ _, ?_⟩
      rw [List.map_take] at ha
      exact hpair.2.2.subset ((List.take_sublist 3 _).subset ha)
    · obtain ⟨bq', h1, h2⟩ := ih a ha
      exact ⟨bq', List.mem_cons_of_mem _ h1, h2⟩

theorem top9_flatten_spec {queens : List String} :
    ∀ (brs : List BracketResult) (bl : List (List String)),
      List.Forall₂ (fun (br : BracketResult) (bq : List String) =>
        br.queens = bq ∧ br.episodes.length = 3 ∧
        (br.standings.map Prod.fst).Perm bq) brs bl →
      (∀ bq ∈ bl, bq.Nodup ∧ bq.length = 6 ∧ ∀ x ∈ bq, x ∈ queens) →
      List.Pairwise (fun x y => ∀ a, a ∈ x → a ∈ y → False) bl →
      ((brs.map fun br => (br.standings.take 3).map Prod.fst).flatten.length
          = 3 * brs.length) ∧
      (brs.map fun br => (br.standings.take 3).map Prod.fst).flatten.Nodup ∧
      (∀ x ∈ (brs.map fun br => (br.standings.take 3).map Prod.fst).flatten,
        x ∈ queens) := by
  intro brs bl hf
  induction hf with
  | nil => exact fun _ _ => ⟨rfl, List.nodup_nil, by simp⟩
  | @cons br bq brs' bl' hpair htail ih =>
    intro hfacts hdisj
    obtain ⟨_, _, hperm⟩ := hpair
    obtain ⟨hbnd, hb6, hbsub⟩ := hfacts bq (List.mem_cons_self bq bl')
    have hfacts' : ∀ b ∈ bl', b.Nodup ∧ b.length = 6 ∧ ∀ x ∈ b, x ∈ queens :=
      fun b hb => hfacts b (List.mem_cons_of_mem bq hb)
    have hhead := (List.pairwise_cons.mp hdisj).1
    have hdisj' := (List.pairwise_cons.mp hdisj).2
    obtain ⟨ihlen, ihnd, ihsub⟩ := ih hfacts' hdisj'
    have hslen : br.standings.length = 6 := by
      have := hperm.length_eq
      rw [List.length_map] at this
      omega
    have htake : (br.standings.take 3).map Prod.fst
        = (br.standings.map Prod.fst).take 3 := by
      rw [List.map_take]
    have htlen : ((br.standings.take 3).map Prod.fst).length = 3 := by
      rw [htake, List.length_take, List.length_map]
      omega
    have htsub : ∀ x ∈ (br.standings.take 3).map Prod.fst, x ∈ bq := by
      intro x hx
      rw [htake] at hx
      exact hperm.subset ((List.take_sublist 3 _).subset hx)
    have htnd : ((br.standings.take 3).map Prod.fst).Nodup := by
      rw [htake]
      exact (List.take_sublist 3 _).nodup (hperm.symm.nodup hbnd)
    refine ⟨?_, ?_, ?_⟩
    · simp only [List.map_cons, List.flatten_cons, List.length_append,
        ihlen, htlen, List.length_cons]
      ring
    · rw [List.map_cons, List.flatten_cons, List.nodup_append]
      refine ⟨htnd, ihnd, ?_⟩
      intro a ha hacon
      obtain ⟨bq', hbq', ha'⟩ := forall₂_flatten_mem htail a hacon
      exact hhead bq' hbq' a (htsub a ha) ha'
    · intro x hx
      rw [List.map_cons, List.flatten_cons, List.mem_append] at hx
      rcases hx with hx | hx
      · exact hbsub x (htsub x hx)
      · exact ihsub x hx

theorem forall₂_mem_left {R : BracketResult → List String → Prop} :
    ∀ {l1 : List BracketResult} {l2 : List (List String)},
      List.Forall₂ R l1 l2 → ∀ a ∈ l1, ∃ b ∈ l2, R a b := by
  intro l1 l2 hf
  induction hf with
  | nil => simp
  | cons hp ht ih =>
    intro a ha
    rcases List.mem_cons.mp ha with ha | ha
    · exact ⟨_, List.mem_cons_self _ _, ha ▸ hp⟩
    · obtain ⟨b, hb1, hb2⟩ := ih a ha
      exact ⟨b, List.mem_cons_of_mem _ hb1, hb2⟩

/-- Master specification of a successful default-configuration run on 18
distinct competitors, for any contract draw stream. -/
theorem simulateSeason_spec {queens : List String} {s : Rng} {fuel : Nat}
    {r : SeasonBody}
    (hs : RngContract s) (hnd : queens.Nodup) (h18 : queens.length = 18)
    (h : simulateSeason queens s 0 0 fuel = Except.ok (some r)) :
    (r.brackets.length = 3 ∧ ∀ br ∈ r.brackets, br.episodes.length = 3) ∧
    (r.top9.length = 9 ∧ r.top9.Nodup ∧ ∀ x ∈ r.top9, x ∈ queens) ∧
    (∃ e1 e2 : String, r.semiEliminations = [e1, e2] ∧ e1 ≠ e2 ∧
      e1 ∈ r.top9 ∧ e2 ∈ r.top9 ∧
      r.finalists = r.top9.filter
        (fun q => ¬ (([e1, e2] : List String).contains q)) ∧
      r.finalists.length = 7) ∧
    (r.finaleRounds.map roundParticipants = [7, 4, 2] ∧
      r.finaleRounds.map byeCount = [1, 0, 0] ∧ r.champion ∈ queens) := by
  unfold simulateSeason at h
  simp only [reduceIte] at h
  rw [if_neg (by omega)] at h
  split at h
  · exact absurd h (by simp)
  · next brs eps c1 heq =>
    simp only [Except.ok.injEq, Option.some.injEq] at h
    have hk3 : (0 : Nat) < 3 := by norm_num
    have hbllen : (sliceIntoBrackets queens 3).length = 3 :=
      (slice_spec queens 3 hk3).1
    have hfacts := slice_mem_facts hnd hk3 (m := 6) (by omega)
    have hdisj := slice_pairwise_disjoint hnd hk3
    obtain ⟨extra, hbrs, hf⟩ := runBrackets_spec _ 0 [] [] 0 heq
    rw [List.nil_append] at hbrs
    subst hbrs
    have hbrslen : brs.length = 3 := by
      rw [hf.length_eq, hbllen]
    set T9 := brs.foldl
      (fun acc br => acc ++ (br.standings.take 3).map Prod.fst) [] with hT9
    have hT9f : T9 = (brs.map fun br =>
        (br.standings.take 3).map Prod.fst).flatten := by
      rw [hT9, foldl_append_map, List.nil_append]
    obtain ⟨hflen, hfnd, hfsub⟩ := @top9_flatten_spec queens
      brs _ hf hfacts hdisj
    have hT9len : T9.length = 9 := by
      rw [hT9f, hflen, hbrslen]
    have hT9nd : T9.Nodup := by rw [hT9f]; exact hfnd
    have hT9sub : ∀ x ∈ T9, x ∈ queens := by
      rw [hT9f]; exact hfsub
    obtain ⟨e1, e2, helims, hne, he1, he2, hfilter, h7⟩ :=
      semiLoop_two_spec hs hT9nd hT9len c1
    set SR := semiLoop s 2 T9 [] c1 with hSR
    obtain ⟨hshlen, hshsub⟩ := shuffle_spec hs (l := SR.1) SR.2.2
      (by rw [h7]; norm_num)
    set SH := shuffle SR.1 s SR.2.2 with hSH
    obtain ⟨hrp, hrb, hflen1, hfinsub⟩ := finale_seven_spec
      (s := s) (c := SH.2) (l := SH.1) (by rw [hshlen, h7])
    set FIN := finaleLoop s SH.1 SH.2 with hFIN
    refine ⟨⟨?_, ?_⟩, ⟨?_, ?_, ?_⟩, ⟨e1, e2, ?_, hne, ?_, ?_, ?_, ?_⟩,
      ?_, ?_, ?_⟩
    · rw [← h]
      exact hbrslen
    · rw [← h]
      simp only []
      intro br hbr
      obtain ⟨bq, _, _, hep, _⟩ := forall₂_mem_left hf br hbr
      exact hep
    · rw [← h]
      exact hT9len
    · rw [← h]
      exact hT9nd
    · rw [← h]
      exact hT9sub
    · rw [← h]
      exact helims
    · rw [← h]
      exact he1
    · rw [← h]
      exact he2
    · rw [← h]
      simp only []
      rw [hfilter]
    · rw [← h]
      exact h7
    · rw [← h]
      exact hrp
    · rw [← h]
      exact hrb
    · rw [← h]
      simp only []
      have h0 : 0 < FIN.2.1.length := by rw [hflen1]; norm_num
      have : FIN.2.1.getD 0 "" ∈ FIN.2.1 := by
        rw [List.getD_eq_getElem _ _ h0]
        exact List.getElem_mem h0
      have h1 : FIN.2.1.getD 0 "" ∈ SH.1 := hfinsub _ this
      have h2 : FIN.2.1.getD 0 "" ∈ SR.1 := hshsub _ h1
      have h3 : FIN.2.1.getD 0 "" ∈ T9 := by
        rw [hfilter] at h2
        exact List.mem_of_mem_filter h2
      exact hT9sub _ h3

/-! ### Claim C5: end-to-end season shape -/

/-- C5: for 18 distinct competitor names with default configuration and
any contract draw stream on which the season returns, the result has
exactly 3 BracketResults each with exactly 3 EpisodeRecords, a 9-entry
Top-9 pool, a 2-entry semifinal-elimination list, a 7-entry finalists
list, finale rounds with participant counts 7, 4, 2 and byes 1, 0, 0
(the single bye in the first round), and a champion drawn from the
original 18 names. -/
theorem season_shape_18_default
    {queens : List String} {s : Rng} {fuel : Nat} {r : SeasonBody}
    (hs : RngContract s) (hnd : queens.Nodup) (h18 : queens.length = 18)
    (h : simulateSeason queens s 0 0 fuel = Except.ok (some r)) :
    r.brackets.length = 3 ∧
    (∀ br ∈ r.brackets, br.episodes.length = 3) ∧
    r.top9.length = 9 ∧
    r.semiEliminations.length = 2 ∧
    r.finalists.length = 7 ∧
    r.finaleRounds.map roundParticipants = [7, 4, 2] ∧
    r.finaleRounds.map byeCount = [1, 0, 0] ∧
    r.champion ∈ queens := by
  obtain ⟨⟨hb1, hb2⟩, ⟨ht1, _, _⟩, ⟨e1, e2, hel, _, _, _, _, h7⟩,
    hr1, hr2, hch⟩ := simulateSeason_spec hs hnd h18 h
  exact ⟨hb1, hb2, ht1, by rw [hel]; rfl, h7, hr1, hr2, hch⟩

theorem season_shape_18_default_witness :
    seasonA.brackets.length = 3 ∧
    (∀ br ∈ seasonA.brackets, br.episodes.length = 3) ∧
    seasonA.top9.length = 9 ∧
    seasonA.semiEliminations.length = 2 ∧
    seasonA.finalists.length = 7 ∧
    seasonA.finaleRounds.map roundParticipants = [7, 4, 2] ∧
    seasonA.finaleRounds.map byeCount = [1, 0, 0] ∧
    seasonA.champion ∈ names18 :=
  season_shape_18_default rngA_contract (by decide) (by decide)
    (show simulateSeason names18 rngA 0 0 20 = Except.ok (some seasonA)
      from rfl)

/-! ### Claim C10: semifinal eliminations vs finalists -/

/-- C10: the two semifinal-eliminated names are distinct members of the
Top-9 pool, and the finalists list is exactly the Top-9 pool with those
two names removed — an order-preserving filter, so the survivors keep
the relative order they had in the pool (bracket 1's survivors first). -/
theorem semifinal_elims_and_finalists
    {queens : List String} {s : Rng} {fuel : Nat} {r : SeasonBody}
    (hs : RngContract s) (hnd : queens.Nodup) (h18 : queens.length = 18)
    (h : simulateSeason queens s 0 0 fuel = Except.ok (some r)) :
    r.top9.Nodup ∧
    (∃ e1 e2 : String, r.semiEliminations = [e1, e2] ∧ e1 ≠ e2 ∧
      e1 ∈ r.top9 ∧ e2 ∈ r.top9) ∧
    r.finalists = r.top9.filter
      (fun q => ¬ (r.semiEliminations.contains q)) := by
  obtain ⟨_, ⟨_, hnd9, _⟩, ⟨e1, e2, hel, hne, he1, he2, hfil, _⟩, _⟩ :=
    simulateSeason_spec hs hnd h18 h
  refine ⟨hnd9, ⟨e1, e2, hel, hne, he1, he2⟩, ?_⟩
  rw [hel, hfil]

theorem semifinal_elims_and_finalists_witness :
    seasonA.top9.Nodup ∧
    (∃ e1 e2 : String, seasonA.semiEliminations = [e1, e2] ∧ e1 ≠ e2 ∧
      e1 ∈ seasonA.top9 ∧ e2 ∈ seasonA.top9) ∧
    seasonA.finalists = seasonA.top9.filter
      (fun q => ¬ (seasonA.semiEliminations.contains q)) :=
  semifinal_elims_and_finalists rngA_contract (by decide) (by decide)
    (show simulateSeason names18 rngA 0 0 20 = Except.ok (some seasonA)
      from rfl)
